import Mathlib

/-!
# kp: path mapping and mapped tar streaming

A shallow embedding of `main.go` of `kp` (copy a local file or directory tree into a
running container through `tar xmf - -C /`), together with the parts of the Go standard
library it calls (`path/filepath`, `os`, `archive/tar`, `io`) on a Unix host.

Go strings are byte strings; here they are `String`s handled through their list of
characters, so that every definition reduces by plain evaluation.
-/

namespace Kp

/-! ## `path/filepath` and `os` helpers (Unix: separator `/`, no volume names) -/

/-- The constant `filepath.Separator` on Unix. -/
def Separator : Char := '/'

/-- The predicate `os.IsPathSeparator`. -/
def IsPathSeparator (c : Char) : Bool := c == Separator

/-- The backtracking loop of `filepath.Clean` for a `..` element, on the reversed output
buffer: `c` is the byte at index `out.w` (the one just dropped by `out.w--`), and bytes are
dropped while `out.w > dotdot && !os.IsPathSeparator(out.index(out.w))`. -/
def cleanBacktrack (dotdot : Nat) : List Char → Char → List Char
  | [], _ => []
  | c1 :: r, c =>
    if (c1 :: r).length > dotdot && !IsPathSeparator c then cleanBacktrack dotdot r c1
    else c1 :: r

/-- The main loop of `filepath.Clean`: `rest` is `path[r:]`, `out` is the output buffer
`buf[:w]` kept reversed, `dotdot` is the index where `..` must stop. Every iteration
consumes at least one byte of `rest`, so a fuel of `len(path)` is never exhausted. -/
def cleanLoop (rooted : Bool) : Nat → List Char → List Char → Nat → List Char
  | 0, _, out, _ => out
  | fuel + 1, rest, out, dotdot =>
    match rest with
    | [] => out
    | c :: tl =>
      if IsPathSeparator c then
        -- empty path element
        cleanLoop rooted fuel tl out dotdot
      else if c == '.' && (tl.isEmpty || IsPathSeparator (tl.headD 'x')) then
        -- . element
        cleanLoop rooted fuel tl out dotdot
      else if c == '.' && tl.headD 'x' == '.' &&
          (tl.tail.isEmpty || IsPathSeparator (tl.tail.headD 'x')) then
        -- .. element: remove to last separator
        if out.length > dotdot then
          cleanLoop rooted fuel tl.tail (cleanBacktrack dotdot out.tail (out.headD 'x')) dotdot
        else if !rooted then
          let out1 := if out.length > 0 then Separator :: out else out
          let out2 := '.' :: '.' :: out1
          cleanLoop rooted fuel tl.tail out2 out2.length
        else
          cleanLoop rooted fuel tl.tail out dotdot
      else
        -- real path element: add slash if needed, then copy the element
        let out1 :=
          if (rooted && out.length != 1) || (!rooted && out.length != 0) then Separator :: out
          else out
        let el := (c :: tl).takeWhile (fun x => !IsPathSeparator x)
        cleanLoop rooted fuel ((c :: tl).dropWhile (fun x => !IsPathSeparator x))
          (el.reverse ++ out1) dotdot

/-- The function `filepath.Clean` on a list of bytes. -/
def cleanChars (path : List Char) : List Char :=
  match path with
  | [] => ['.']
  | c :: _ =>
    let rooted := IsPathSeparator c
    let out := cleanLoop rooted path.length (if rooted then path.tail else path)
      (if rooted then [Separator] else []) (if rooted then 1 else 0)
    -- Turn empty string into "."
    if out.length == 0 then ['.'] else out.reverse

/-- The function `filepath.Clean`. -/
def Clean (path : String) : String := ⟨cleanChars path.data⟩

/-- The function `strings.Join(elem, "/")` on lists of bytes. -/
def joinSep : List (List Char) → List Char
  | [] => []
  | [e] => e
  | e :: es => e ++ Separator :: joinSep es

/-- The function `filepath.Join`: the elements from the first non-empty one on are joined
with `/` and cleaned; the result is empty when every element is empty. -/
def Join : List String → String
  | [] => ""
  | e :: es => if e != "" then ⟨cleanChars (joinSep ((e :: es).map String.data))⟩ else Join es

/-- The function `filepath.IsAbs`: the path starts with `/`. -/
def IsAbs (path : String) : Bool :=
  match path.data with
  | c :: _ => c == '/'
  | [] => false

/-- The function `filepath.ToSlash`: the separator already is `/`, the path is returned
unchanged. -/
def ToSlash (path : String) : String := path

/-- The first loop of `basename` in package `os`: remove trailing slashes, keeping the
first byte (`for ; i > 0 && name[i] == '/'; i--`), on the reversed name. -/
def stripTrailingSlashes : List Char → List Char
  | [] => []
  | [c] => [c]
  | c :: c1 :: r => if c == '/' then stripTrailingSlashes (c1 :: r) else c :: c1 :: r

/-- The function `basename` of package `os`, which `os.Lstat` uses to fill
`FileInfo.Name()`: trailing slashes are removed, then the leading directory name. -/
def basename (name : String) : String :=
  ⟨((stripTrailingSlashes name.data.reverse).tail.takeWhile (fun c => c != '/')).reverse ++
    (stripTrailingSlashes name.data.reverse).take 1⟩

/-! ## Errors and filesystem data -/

deriving instance DecidableEq for Except

/-- An error reported by the operating system, by its message. -/
abbrev Errno := String

/-- The error values the program can meet. `syscall` is an error reported by the operating
system (an `*os.PathError`); the others are made by the Go packages named in them. -/
inductive Error where
  | syscall (msg : Errno)
  | rel (targpath basepath : String)
  | skipDir
  | skipAll
  | socketsNotSupported
  | unknownFileMode (mode : Nat)
  | missedWriting (n : Nat)
  | writeTooLong
  | writeAfterClose
  | writingRealFile (path : String) (cause : Error)
  | closedPipe
  deriving DecidableEq, Repr

/-- The loops `for bi < bl && base[bi] != Separator { bi++ }` of `filepath.Rel`. -/
def relScan (s : List Char) (i : Nat) : Nat :=
  i + ((s.drop i).takeWhile (fun c => c != Separator)).length

/-- The Go slice expression `s[i:j]`. -/
def slice (s : List Char) (i j : Nat) : List Char := (s.take j).drop i

/-- The loop of `filepath.Rel` that positions `base[b0:bi]` and `targ[t0:ti]` at the first
differing elements; the result is `(b0, bi, t0, ti)`. Every iteration but the last moves
`bi` forward, so a fuel of `len(base) + 1` is never exhausted. -/
def relLoop (base targ : List Char) : Nat → Nat → Nat → Nat → Nat → Nat × Nat × Nat × Nat
  | 0, b0, bi, t0, ti => (b0, bi, t0, ti)
  | fuel + 1, b0, bi, t0, ti =>
    if bi < base.length && ti < targ.length then
      let bi1 := relScan base bi
      let ti1 := relScan targ ti
      if slice targ t0 ti1 != slice base b0 bi1 then (b0, bi1, t0, ti1)
      else
        let bi2 := if bi1 < base.length then bi1 + 1 else bi1
        let ti2 := if ti1 < targ.length then ti1 + 1 else ti1
        relLoop base targ fuel bi2 bi2 ti2 ti2
    else (b0, bi, t0, ti)

/-- The `n`-fold repetition of `/..` written by `filepath.Rel` when it must go up. -/
def relUps : Nat → List Char
  | 0 => []
  | n + 1 => Separator :: '.' :: '.' :: relUps n

/-- The function `filepath.Rel` (Unix: empty volume names, `sameWord` is equality). -/
def Rel (basepath targpath : String) : Except Error String :=
  let base0 := cleanChars basepath.data
  let targ := cleanChars targpath.data
  if targ == base0 then .ok "."
  else
    let base := if base0 == ['.'] then [] else base0
    let baseSlashed := base.length > 0 && base.headD 'x' == Separator
    let targSlashed := targ.length > 0 && targ.headD 'x' == Separator
    if baseSlashed != targSlashed then .error (.rel targpath basepath)
    else
      let bl := base.length
      let tl := targ.length
      match relLoop base targ (bl + 1) 0 0 0 0 with
      | (b0, bi, t0, _) =>
        if slice base b0 bi == ['.', '.'] then .error (.rel targpath basepath)
        else if b0 != bl then
          -- Base elements left. Must go up before going down.
          let seps := (slice base b0 bl).count Separator
          .ok ⟨'.' :: '.' :: relUps seps ++
            (if t0 != tl then Separator :: targ.drop t0 else [])⟩
        else .ok ⟨targ.drop t0⟩

/-- The function `filepath.Abs` on Unix; `getwd` is the answer of `os.Getwd`. -/
def Abs (getwd : Except Errno String) (path : String) : Except Error String :=
  if IsAbs path then .ok (Clean path)
  else
    match getwd with
    | .error e => .error (.syscall e)
    | .ok wd => .ok (Join [wd, path])

/-! ### File modes (`io/fs.FileMode`, a `uint32`) -/

def ModeDir : Nat := 2 ^ 31
def ModeSymlink : Nat := 2 ^ 27
def ModeDevice : Nat := 2 ^ 26
def ModeNamedPipe : Nat := 2 ^ 25
def ModeSocket : Nat := 2 ^ 24
def ModeSetuid : Nat := 2 ^ 23
def ModeSetgid : Nat := 2 ^ 22
def ModeCharDevice : Nat := 2 ^ 21
def ModeSticky : Nat := 2 ^ 20
def ModeIrregular : Nat := 2 ^ 19

/-- The mask `fs.ModeType` for the type bits. -/
def ModeType : Nat :=
  ModeDir ||| ModeSymlink ||| ModeNamedPipe ||| ModeSocket ||| ModeDevice ||| ModeCharDevice |||
    ModeIrregular

/-- The mask `fs.ModePerm` (`0777`). -/
def ModePerm : Nat := 511

/-- The method `FileMode.IsDir`. -/
def IsDir (mode : Nat) : Bool := mode &&& ModeDir != 0

/-- The method `FileMode.IsRegular`. -/
def IsRegular (mode : Nat) : Bool := mode &&& ModeType == 0

/-- The method `FileMode.Perm`. -/
def Perm (mode : Nat) : Nat := mode &&& ModePerm

/-- What the `lstat` system call reports about a path (the fields the program reads). -/
structure Stat where
  mode : Nat
  size : Nat
  modTime : Nat
  deriving DecidableEq, Repr

/-- The value `os.FileInfo`. -/
structure FileInfo where
  name : String
  size : Nat
  mode : Nat
  modTime : Nat
  deriving DecidableEq, Repr

/-- The function `os.Lstat`, given the answer `st` of the system call for `name`: the
`Name()` of the result is `basename(name)`. -/
def Lstat (st : Except Errno Stat) (name : String) : Except Error FileInfo :=
  match st with
  | .error e => .error (.syscall e)
  | .ok s => .ok { name := basename name, size := s.size, mode := s.mode, modTime := s.modTime }

/-! ### The filesystem below the source path, as one traversal sees it -/

mutual
/-- The filesystem at one path: the answer of `lstat` for it and, for a directory, the
answer of reading it (`readErr` when `readDirNames` fails, else the sorted `entries`). -/
inductive Tree where
  | node (lstat : Except Errno Stat) (readErr : Option Errno) (entries : Forest)
/-- The named entries of a directory, in the order `readDirNames` returns them. -/
inductive Forest where
  | nil
  | cons (name : String) (t : Tree) (rest : Forest)
end

/-- The answer of the `lstat` system call at the root of a tree. -/
def Tree.lstat : Tree → Except Errno Stat
  | .node st _ _ => st

/-- The type `filepath.WalkFunc`; the state `σ` stands for the variables the closure
captures and updates. -/
abbrev WalkFunc (σ : Type) := String → Option FileInfo → Option Error → σ → σ × Option Error

mutual
/-- The function `walk` of `path/filepath`: descends `path` recursively, calling `walkFn`. -/
def walk {σ : Type} (walkFn : WalkFunc σ) (path : String) (info : FileInfo) :
    Tree → σ → σ × Option Error
  | .node _ readErr entries, s =>
    if !IsDir info.mode then walkFn path (some info) none s
    else
      -- names, err := readDirNames(path); err1 := walkFn(path, info, err)
      match walkFn path (some info) (readErr.map Error.syscall) s with
      | (s1, err1) =>
        if readErr != none || err1 != none then (s1, err1)
        else walkNames walkFn path entries s1
/-- The loop `for _, name := range names` of `walk`. -/
def walkNames {σ : Type} (walkFn : WalkFunc σ) (path : String) :
    Forest → σ → σ × Option Error
  | .nil, s => (s, none)
  | .cons name t rest, s =>
    let filename := Join [path, name]
    match Lstat t.lstat filename with
    | .error e =>
      match walkFn filename none (some e) s with
      | (s1, err) =>
        if err != none && err != some .skipDir then (s1, err)
        else walkNames walkFn path rest s1
    | .ok fileInfo =>
      match walk walkFn filename fileInfo t s with
      | (s1, err) =>
        if err != none && (!IsDir fileInfo.mode || err != some .skipDir) then (s1, err)
        else walkNames walkFn path rest s1
end

/-- The function `filepath.Walk`. -/
def Walk {σ : Type} (fn : WalkFunc σ) (root : String) (fs : Tree) (s : σ) :
    σ × Option Error :=
  match (match Lstat fs.lstat root with
    | .error err => fn root none (some err) s
    | .ok info => walk fn root info fs s) with
  | (s1, err) => if err == some .skipDir || err == some .skipAll then (s1, none) else (s1, err)

/-! ## `ListFiles` -/

/-- A `map[string]string`, as the list of its entries (keys are kept distinct by
`mapSet`); the order of the list is one iteration order of the map. -/
abbrev Files := List (String × String)

/-- The assignment `files[k] = v`. -/
def mapSet : Files → String → String → Files
  | [], k, v => [(k, v)]
  | (k1, v1) :: rest, k, v =>
    if k1 = k then (k, v) :: rest else (k1, v1) :: mapSet rest k v

/-- The lookup `files[k]` with its presence flag. -/
def mapGet : Files → String → Option String
  | [], _ => none
  | (k1, v1) :: rest, k => if k1 = k then some v1 else mapGet rest k

/-- The closure passed to `filepath.Walk` by `ListFiles` (lines 117-131); it captures `src`,
`dest`, `fi` and updates `files`. -/
def listFilesFn (src dest : String) (fi : FileInfo) : WalkFunc Files :=
  fun path _ err files =>
    match err with
    | some e => (files, some e)
    | none =>
      match Rel src path with
      | .error e => (files, some e)
      | .ok relPath => (mapSet files path (Join [dest, fi.name, relPath]), none)

/-- The function `ListFiles`; `fs` is the filesystem at `src`. The result is the pair
`(map, error)` Go returns, a nil map being `none`. -/
def ListFiles (fs : Tree) (src dest : String) : Option Files × Option Error :=
  let files : Files := []
  match Lstat fs.lstat src with
  | .error err => (none, some err)
  | .ok fi =>
    -- from here on the variable `err` of line 103 is nil
    let err : Option Error := none
    if !IsDir fi.mode then (some (mapSet files src (Join [dest, fi.name])), none)
    else
      match Walk (listFilesFn src dest fi) src fs files with
      | (files1, errDir) =>
        -- line 133 tests `err`, not `errDir`
        if err != none then (none, errDir) else (some files1, none)

/-! ## `archive/tar` and `io` -/

def TypeReg : Char := '0'
def TypeLink : Char := '1'
def TypeSymlink : Char := '2'
def TypeChar : Char := '3'
def TypeBlock : Char := '4'
def TypeDir : Char := '5'
def TypeFifo : Char := '6'

/-- The fields of `tar.Header` the program sets or reads. Owner, group and device numbers,
which `tar.FileInfoHeader` copies from `fi.Sys()`, are left out. -/
structure Header where
  typeflag : Char
  name : String
  linkname : String
  size : Nat
  mode : Nat
  modTime : Nat
  deriving DecidableEq, Repr

/-- The mode bits `c_ISUID`, `c_ISGID`, `c_ISVTX` that `tar.FileInfoHeader` adds to the
permission bits. -/
def specialBits (fm : Nat) : Nat :=
  (if fm &&& ModeSetuid != 0 then 2048 else 0) ||| (if fm &&& ModeSetgid != 0 then 1024 else 0) |||
    (if fm &&& ModeSticky != 0 then 512 else 0)

/-- The function `tar.FileInfoHeader`: the name is `fi.Name()`, and `link` is recorded as
the link target of a symlink only. -/
def FileInfoHeader (fi : FileInfo) (link : String) : Except Error Header :=
  let fm := fi.mode
  let h : Header :=
    { typeflag := TypeReg, name := fi.name, linkname := "", size := 0,
      mode := Perm fm ||| specialBits fm, modTime := fi.modTime }
  if IsRegular fm then .ok { h with typeflag := TypeReg, size := fi.size }
  else if IsDir fm then .ok { h with typeflag := TypeDir, name := h.name ++ "/" }
  else if fm &&& ModeSymlink != 0 then .ok { h with typeflag := TypeSymlink, linkname := link }
  else if fm &&& ModeDevice != 0 then
    if fm &&& ModeCharDevice != 0 then .ok { h with typeflag := TypeChar }
    else .ok { h with typeflag := TypeBlock }
  else if fm &&& ModeNamedPipe != 0 then .ok { h with typeflag := TypeFifo }
  else if fm &&& ModeSocket != 0 then .error .socketsNotSupported
  else .error (.unknownFileMode fm)

/-- The function `isHeaderOnlyType` of `archive/tar`. -/
def isHeaderOnlyType (flag : Char) : Bool :=
  flag == TypeLink || flag == TypeSymlink || flag == TypeChar || flag == TypeBlock ||
    flag == TypeDir || flag == TypeFifo

/-- One record of the archive: a header and the body bytes written after it. -/
structure Record where
  hdr : Header
  body : List Nat
  deriving DecidableEq, Repr

/-- The state of a `tar.Writer` on top of an `io.Writer`: `out` is the archive written so
far, `nb` the body bytes the current record still expects, `err` the sticky error,
`trailer` whether `Close` wrote the end-of-archive blocks. The underlying `io.Writer` is
`quota`: the number of writes it still accepts before failing (`none`: it accepts all);
one header block, one body copy and the trailer each count as one write. Padding is not
recorded. The validation of the header fields by `WriteHeader` is not part of the state:
see `Writer.WriteHeader`. -/
structure Writer where
  out : List Record
  nb : Nat
  err : Option Error
  quota : Option Nat
  trailer : Bool
  deriving DecidableEq, Repr

/-- The function `tar.NewWriter`. -/
def NewWriter (w : Option Nat) : Writer :=
  { out := [], nb := 0, err := none, quota := w, trailer := false }

/-- One write to the underlying `io.Writer`. -/
def Writer.rawWrite (tw : Writer) : Except Error Writer :=
  match tw.quota with
  | none => .ok tw
  | some 0 => .error .closedPipe
  | some (n + 1) => .ok { tw with quota := some n }

/-- The method `(*tar.Writer).Flush`. -/
def Writer.Flush (tw : Writer) : Option Error :=
  match tw.err with
  | some e => some e
  | none => if tw.nb > 0 then some (.missedWriting tw.nb) else none

/-- The method `(*tar.Writer).WriteHeader`, for a header whose fields can be encoded. The
real method first validates the header and returns a non-fatal error, writing nothing, when
it cannot: in particular when the name of a regular file, device or FIFO ends in `/`
(`hasTrailingSlash`). That validation is not embedded here; a property that needs a header
of such a type to be written states the condition on the name. -/
def Writer.WriteHeader (tw : Writer) (hdr : Header) : Writer × Option Error :=
  match tw.Flush with
  | some e => (tw, some e)
  | none =>
    match tw.rawWrite with
    | .error e => ({ tw with err := some e }, some e)
    | .ok tw1 =>
      ({ tw1 with
          out := tw1.out ++ [{ hdr := hdr, body := [] }],
          nb := if isHeaderOnlyType hdr.typeflag then 0 else hdr.size }, none)

/-- Bytes appended to the body of the last record. -/
def appendBody : List Record → List Nat → List Record
  | [], _ => []
  | [r], b => [{ r with body := r.body ++ b }]
  | r :: r1 :: rs, b => r :: appendBody (r1 :: rs) b

/-- The method `(*tar.Writer).Write`: at most `nb` bytes are written, and
`ErrWriteTooLong` is returned when more were given. -/
def Writer.Write (tw : Writer) (b : List Nat) : Writer × Option Error :=
  match tw.err with
  | some e => (tw, some e)
  | none =>
    let overwrite := b.length > tw.nb
    let b1 := if overwrite then b.take tw.nb else b
    if b1.length > 0 then
      match tw.rawWrite with
      | .error e => ({ tw with err := some e }, some e)
      | .ok tw1 =>
        ({ tw1 with out := appendBody tw1.out b1, nb := tw1.nb - b1.length },
          if overwrite then some .writeTooLong else none)
    else (tw, if overwrite then some .writeTooLong else none)

/-- The method `(*tar.Writer).Close`. -/
def Writer.Close (tw : Writer) : Writer × Option Error :=
  if tw.err = some .writeAfterClose then (tw, none)
  else
    match tw.err with
    | some e => (tw, some e)
    | none =>
      -- Trailer: two zero blocks.
      match tw.Flush with
      | some e => ({ tw with err := some .writeAfterClose }, some e)
      | none =>
        match tw.rawWrite with
        | .error e => ({ tw with err := some .writeAfterClose }, some e)
        | .ok tw1 => ({ tw1 with trailer := true, err := some .writeAfterClose }, none)

/-- An opened file as a reader: the bytes its reads deliver, and the error that ends them
(`none`: end of file). -/
structure File where
  data : List Nat
  readErr : Option Errno
  deriving DecidableEq, Repr

/-- The function `io.Copy(tw, f)`: the bytes read are written, then a read error other than
end of file is returned. -/
def ioCopy (tw : Writer) (f : File) : Writer × Option Error :=
  match (if f.data.length > 0 then tw.Write f.data else (tw, none)) with
  | (tw1, some ew) => (tw1, some ew)
  | (tw1, none) => (tw1, f.readErr.map Error.syscall)

/-- The answers of the operating system to the calls of `addFileToTar`. -/
structure Env where
  Getwd : Except Errno String
  lstat : String → Except Errno Stat
  Readlink : String → Except Errno String
  Open : String → Except Errno File

/-! ## `addFileToTar`, `createMappedTar`, `CopyFiles` -/

/-- The function `addFileToTar`. -/
def addFileToTar (env : Env) (root src dst : String) (tw : Writer) : Writer × Option Error :=
  match Abs env.Getwd root with
  | .error err => (tw, some err)
  | .ok absRoot =>
    match (if IsAbs src then .ok src else Abs env.Getwd src) with
    | .error err => (tw, some err)
    | .ok absPath =>
      match (if dst == "" then Rel absRoot absPath else .ok dst) with
      | .error err => (tw, some err)
      | .ok tarPath0 =>
        let tarPath := ToSlash tarPath0
        match Lstat (env.lstat absPath) absPath with
        | .error err => (tw, some err)
        | .ok fi =>
          let mode := fi.mode
          if IsDir mode then
            match FileInfoHeader fi tarPath with
            | .error err => (tw, some err)
            | .ok tarHeader => tw.WriteHeader { tarHeader with name := tarPath }
          else if IsRegular mode then
            match FileInfoHeader fi tarPath with
            | .error err => (tw, some err)
            | .ok tarHeader =>
              match tw.WriteHeader { tarHeader with name := tarPath } with
              | (tw1, some err) => (tw1, some err)
              | (tw1, none) =>
                match env.Open absPath with
                | .error err => (tw1, some (.syscall err))
                | .ok f =>
                  match ioCopy tw1 f with
                  | (tw2, some err) => (tw2, some (.writingRealFile absPath err))
                  | (tw2, none) => (tw2, none)
          else if mode &&& ModeSymlink != 0 then
            match env.Readlink absPath with
            | .error err => (tw, some (.syscall err))
            | .ok target =>
              if IsAbs target then
                -- Skipping: only relative symlinks are supported.
                (tw, none)
              else
                match FileInfoHeader fi target with
                | .error err => (tw, some err)
                | .ok tarHeader => tw.WriteHeader { tarHeader with name := tarPath }
          else
            -- Adding possibly unsupported file. Try to add it anyway?
            match FileInfoHeader fi "" with
            | .error err => (tw, some err)
            | .ok tarHeader => tw.WriteHeader tarHeader

/-- The loop `for src, dst := range files` of `createMappedTar`, in the iteration order
given by the list. -/
def addFiles (env : Env) (root : String) : Files → Writer → Writer × Option Error
  | [], tw => (tw, none)
  | (src, dst) :: rest, tw =>
    match addFileToTar env root src dst tw with
    | (tw1, some err) => (tw1, some err)
    | (tw1, none) => addFiles env root rest tw1

/-- The function `createMappedTar`; the deferred `tw.Close()` runs on every return and its
error is dropped. The final state of the `tar.Writer` is returned with the error. -/
def createMappedTar (env : Env) (w : Option Nat) (root : String) (files : Files) :
    Writer × Option Error :=
  match addFiles env root files (NewWriter w) with
  | (tw, err) => ((tw.Close).1, err)

/-- How the producer task of `CopyFiles` ended: `archive` is what it wrote to the pipe,
`pipeClosed` whether the deferred `writer.Close()` ran, `exit` the status with which
`logrus.Fatal` ended the whole process through `os.Exit` (`none`: the task returned). -/
structure ProducerRun where
  archive : Writer
  pipeClosed : Bool
  exit : Option Nat
  deriving DecidableEq, Repr

/-- The producer task `go func() { ... }()` of `CopyFiles` (lines 148-154), run until it
ends. `logrus.Fatal` logs and calls `os.Exit(1)`; `os.Exit` runs no deferred call. -/
def producer (env : Env) (writer : Option Nat) (files : Files) : ProducerRun :=
  match createMappedTar env writer "/" files with
  | (tw, some _) => { archive := tw, pipeClosed := false, exit := some 1 }
  | (tw, none) => { archive := tw, pipeClosed := true, exit := none }

/-- The function `computeCommand`: the argument list `cmd.Args` of the command built by
`exec.Command`, the program name first. -/
def computeCommand (container pod nspace : String) : List String :=
  -- if no pod provided, it has to be a docker run
  if pod == "" then
    ["docker", "exec", "-i", container, "tar", "xmf", "-", "-C", "/", "--no-same-owner"]
  -- if both container and namespace are provided
  else if container != "" && nspace != "" then
    ["kubectl", "exec", pod, "--namespace", nspace, "-c", container, "-i",
      "--", "tar", "xmf", "-", "-C", "/", "--no-same-owner"]
  -- if only container is provided
  else if container != "" then
    ["kubectl", "exec", pod, "-c", container, "-i",
      "--", "tar", "xmf", "-", "-C", "/", "--no-same-owner"]
  -- if only namespace is provided
  else if nspace != "" then
    ["kubectl", "exec", pod, "--namespace", nspace, "-i",
      "--", "tar", "xmf", "-", "-C", "/", "--no-same-owner"]
  -- if no container neither namespace are provided
  else
    ["kubectl", "exec", pod, "-i",
      "--", "tar", "xmf", "-", "-C", "/", "--no-same-owner"]

/-- How `main` ends. -/
inductive MainEnd where
  /-- `ListFiles` failed: `logrus.Fatal` at line 34, `CopyFiles` is not called. -/
  | listFatal (err : Error)
  /-- `CopyFiles` was called on `files` and returned `err`: `logrus.Fatal` at line 42. -/
  | copyFatal (files : Option Files) (err : Error)
  /-- `CopyFiles` was called on `files` and returned nil. -/
  | done (files : Option Files)

/-- The function `main` once `initConfig` has set the globals `container`, `pod`,
`namespace` (here `nspace`), `src`, `dest`; `copyFiles` stands for the call of `CopyFiles`. -/
def main (fs : Tree) (copyFiles : String → String → String → Option Files → Option Error)
    (container pod nspace src dest : String) : MainEnd :=
  match ListFiles fs src dest with
  | (_, some err) => .listFatal err
  | (files, none) =>
    match copyFiles container pod nspace files with
    | some err => .copyFatal files err
    | none => .done files

/-! ## Notions used to state the properties -/

/-- The keys of a map. -/
def mapKeys (files : Files) : List String := files.map Prod.fst

mutual
/-- The paths of the subtree at `path`: `path` itself and, when it is a directory, the
paths of the subtree of each of its entries, an entry `name` being at `Join [path, name]`. -/
def subtreePaths (path : String) : Tree → List String
  | .node st _ entries =>
    path :: (match st with
      | .ok s => if IsDir s.mode then entryPaths path entries else []
      | .error _ => [])
/-- The paths of the subtrees of the entries of the directory `path`. -/
def entryPaths (path : String) : Forest → List String
  | .nil => []
  | .cons name t rest => subtreePaths (Join [path, name]) t ++ entryPaths path rest
end

/-- A `tar.Writer` that accepts `n` more writes: it has no pending error, the previous
record is complete and the underlying `io.Writer` takes at least `n` writes. -/
def Writer.accepts (tw : Writer) (n : Nat) : Bool :=
  tw.err == none && tw.nb == 0 &&
    (match tw.quota with
      | none => true
      | some q => decide (n ≤ q))

/-- The test `strings.HasSuffix(name, "/")` by which `archive/tar` rejects the name of a
regular file, device or FIFO. -/
def hasTrailingSlash (name : String) : Bool := name.data.getLast? == some '/'

/-- The absolute path `absPath` that `addFileToTar` computes for `src` (lines 252-259). -/
def absPathOf (env : Env) (src : String) : Except Error String :=
  if IsAbs src then .ok src else Abs env.Getwd src

/-! ## The scenario of the specification: `/tmp/a` with `f.txt` ("hi") and `sub/` -/

def dirStat : Stat := { mode := ModeDir + 493, size := 4096, modTime := 0 }

def fileStat : Stat := { mode := 420, size := 2, modTime := 0 }

def linkStat : Stat := { mode := ModeSymlink + 511, size := 5, modTime := 0 }

def fifoStat : Stat := { mode := ModeNamedPipe + 420, size := 0, modTime := 0 }

def sockStat : Stat := { mode := ModeSocket + 493, size := 0, modTime := 0 }

/-- The directory `/tmp/a` holding `f.txt` and the empty directory `sub`. -/
def tmpA : Tree :=
  .node (.ok dirStat) none
    (.cons "f.txt" (.node (.ok fileStat) none .nil)
      (.cons "sub" (.node (.ok dirStat) none .nil) .nil))

/-- The same directory when `sub` cannot be read (permission denied). -/
def tmpALocked : Tree :=
  .node (.ok dirStat) none
    (.cons "f.txt" (.node (.ok fileStat) none .nil)
      (.cons "sub" (.node (.ok dirStat) (some "permission denied") .nil) .nil))

/-- The answers of the operating system in the scenario; `/tmp/l` is a relative symlink,
`/tmp/abs` an absolute one, `/tmp/p` a FIFO, `/tmp/s` a socket, `/tmp/gone` a regular file
that cannot be opened any more. -/
def scenarioEnv : Env where
  Getwd := .ok "/"
  lstat := fun p =>
    if p = "/tmp/a" then .ok dirStat
    else if p = "/tmp/a/f.txt" then .ok fileStat
    else if p = "/tmp/a/sub" then .ok dirStat
    else if p = "/tmp/l" then .ok linkStat
    else if p = "/tmp/abs" then .ok linkStat
    else if p = "/tmp/p" then .ok fifoStat
    else if p = "/tmp/s" then .ok sockStat
    else if p = "/tmp/gone" then .ok fileStat
    else .error "no such file or directory"
  Readlink := fun p =>
    if p = "/tmp/l" then .ok "a/f.txt"
    else if p = "/tmp/abs" then .ok "/etc/passwd"
    else .error "invalid argument"
  Open := fun p =>
    if p = "/tmp/a/f.txt" then .ok { data := [104, 105], readErr := none }
    else .error "no such file or directory"

/-- The map `ListFiles` returns in the scenario. -/
def scenarioFiles : Files :=
  [("/tmp/a", "/opt/a"), ("/tmp/a/f.txt", "/opt/a/f.txt"), ("/tmp/a/sub", "/opt/a/sub")]

/-! ## Properties of `computeCommand` -/

/-- C10: the command built by `computeCommand` ends with the extraction under `/` that
ignores ownership; it is `docker exec -i <container>` exactly when `pod` is empty, and
otherwise `kubectl exec <pod>` carrying `--namespace <namespace>` iff the namespace is not
empty and `-c <container>` iff the container is not empty. -/
theorem computeCommand_shape (container pod nspace : String) :
    computeCommand container pod nspace =
      (if pod = "" then ["docker", "exec", "-i", container]
        else ["kubectl", "exec", pod] ++ (if nspace = "" then [] else ["--namespace", nspace]) ++
          (if container = "" then [] else ["-c", container]) ++ ["-i", "--"]) ++
        ["tar", "xmf", "-", "-C", "/", "--no-same-owner"] ∧
    ((computeCommand container pod nspace).take 4 = ["docker", "exec", "-i", container] ↔
      pod = "") := by
  by_cases hp : pod = "" <;> by_cases hc : container = "" <;> by_cases hn : nspace = "" <;>
    simp [computeCommand, hp, hc, hn]

/-! ## Properties of `ListFiles` -/

/-- C1: when `src` exists and is not a directory, `ListFiles` succeeds and returns the map
with the single entry `src -> Join(dest, basename(src))`. -/
theorem ListFiles_not_dir (fs : Tree) (src dest : String) (st : Stat)
    (hst : fs.lstat = .ok st) (hdir : IsDir st.mode = false) :
    ListFiles fs src dest = (some [(src, Join [dest, basename src])], none) := by
  simp [ListFiles, Lstat, hst, hdir, mapSet]

theorem ListFiles_not_dir_witness :
    ListFiles (.node (.ok fileStat) none .nil) "/tmp/a/f.txt" "/opt" =
      (some [("/tmp/a/f.txt", "/opt/f.txt")], none) :=
  ListFiles_not_dir (.node (.ok fileStat) none .nil) "/tmp/a/f.txt" "/opt" fileStat rfl
    (by decide)

/-- C8: when the `lstat` of `src` fails, `ListFiles` returns that error and a nil map, and
`main` ends at the first `logrus.Fatal` whatever `CopyFiles` would do: it is not called. -/
theorem ListFiles_missing (fs : Tree) (src dest : String) (e : Errno)
    (hst : fs.lstat = .error e) :
    ListFiles fs src dest = (none, some (.syscall e)) ∧
      ∀ copyFiles container pod nspace,
        main fs copyFiles container pod nspace src dest = .listFatal (.syscall e) := by
  have h : ListFiles fs src dest = (none, some (.syscall e)) := by
    simp [ListFiles, Lstat, hst]
  refine ⟨h, ?_⟩
  intro copyFiles container pod nspace
  simp [main, h]

theorem ListFiles_missing_witness :
    ListFiles (.node (.error "no such file or directory") none .nil) "/tmp/zz" "/opt" =
        (none, some (.syscall "no such file or directory")) ∧
      ∀ copyFiles container pod nspace,
        main (.node (.error "no such file or directory") none .nil) copyFiles container pod
          nspace "/tmp/zz" "/opt" = .listFatal (.syscall "no such file or directory") :=
  ListFiles_missing (.node (.error "no such file or directory") none .nil) "/tmp/zz" "/opt"
    "no such file or directory" rfl

/-- C3 (failing input): reading `/tmp/a/sub` fails, so the walk of `/tmp/a` returns the
error, yet `ListFiles` returns the partial map and a nil error. -/
theorem ListFiles_locked_subdir :
    (Walk (listFilesFn "/tmp/a" "/opt"
        { name := "a", size := 4096, mode := ModeDir + 493, modTime := 0 })
      "/tmp/a" tmpALocked []).2 = some (.syscall "permission denied") ∧
    ListFiles tmpALocked "/tmp/a" "/opt" =
      (some [("/tmp/a", "/opt/a"), ("/tmp/a/f.txt", "/opt/a/f.txt")], none) := by
  decide

/-! ## Properties of the `tar.Writer` -/

theorem symlink_not_regular (mode : Nat) (h : mode &&& ModeSymlink ≠ 0) :
    IsRegular mode = false := by
  have e : mode &&& ModeSymlink = (mode &&& ModeType) &&& ModeSymlink := by
    rw [Nat.land_assoc]
    have : ModeType &&& ModeSymlink = ModeSymlink := by decide
    rw [this]
  simp only [IsRegular, beq_eq_false_iff_ne, ne_eq]
  intro h0
  rw [h0] at e
  simp at e
  exact h e

theorem rawWrite_accepts (tw : Writer) (n : Nat) (h : tw.accepts (n + 1) = true) :
    ∃ tw1, tw.rawWrite = .ok tw1 ∧ tw1.out = tw.out ∧ tw1.nb = 0 ∧ tw1.err = none ∧
      tw1.trailer = tw.trailer ∧ tw1.accepts n = true := by
  obtain ⟨out, nb, err, quota, trailer⟩ := tw
  simp only [Writer.accepts, Bool.and_eq_true, beq_iff_eq] at h
  obtain ⟨⟨he, hn⟩, hq⟩ := h
  subst he hn
  cases quota with
  | none => exact ⟨_, rfl, rfl, rfl, rfl, rfl, by simp [Writer.accepts]⟩
  | some q =>
    cases q with
    | zero => simp at hq
    | succ q =>
      refine ⟨_, rfl, rfl, rfl, rfl, rfl, ?_⟩
      simp at hq
      simp [Writer.accepts, hq]

theorem WriteHeader_accepts (tw : Writer) (hdr : Header) (n : Nat)
    (h : tw.accepts (n + 1) = true) :
    ∃ tw1, tw.WriteHeader hdr = (tw1, none) ∧ tw1.out = tw.out ++ [{ hdr := hdr, body := [] }] ∧
      tw1.nb = (if isHeaderOnlyType hdr.typeflag then 0 else hdr.size) ∧ tw1.err = none ∧
      tw1.trailer = tw.trailer ∧
      (match tw1.quota with
        | none => true
        | some q => decide (n ≤ q)) = true := by
  obtain ⟨tw0, hr, ho, hnb, he, ht, ha⟩ := rawWrite_accepts tw n h
  have hf : tw.Flush = none := by
    simp only [Writer.accepts, Bool.and_eq_true, beq_iff_eq] at h
    simp [Writer.Flush, h.1.1, h.1.2]
  refine ⟨{ tw0 with
      out := tw0.out ++ [{ hdr := hdr, body := [] }],
      nb := if isHeaderOnlyType hdr.typeflag then 0 else hdr.size },
    by simp only [Writer.WriteHeader, hf, hr], ?_, rfl, he, ht, ?_⟩
  · simp [ho]
  · simp only [Writer.accepts, Bool.and_eq_true] at ha
    exact ha.2

/-! ## Properties of `addFileToTar` -/

/-- C5: for a symlink whose link value can be read and a writer that accepts a header,
`addFileToTar` returns no error; an absolute link target leaves the archive untouched, a
relative one adds exactly one header, named by the archive path `dst` and carrying the
link value, with no body. -/
theorem addFileToTar_symlink (env : Env) (root src dst : String) (tw : Writer)
    (absRoot absPath : String) (st : Stat) (target : String)
    (hroot : Abs env.Getwd root = .ok absRoot) (hsrc : absPathOf env src = .ok absPath)
    (hdst : dst ≠ "") (hst : env.lstat absPath = .ok st)
    (hsym : st.mode &&& ModeSymlink ≠ 0) (hnd : IsDir st.mode = false)
    (hlink : env.Readlink absPath = .ok target) (hw : tw.accepts 1 = true) :
    (IsAbs target = true → addFileToTar env root src dst tw = (tw, none)) ∧
    (IsAbs target = false →
      (addFileToTar env root src dst tw).2 = none ∧
      (addFileToTar env root src dst tw).1.out = tw.out ++
        [{ hdr := { typeflag := TypeSymlink, name := ToSlash dst, linkname := target, size := 0,
                    mode := Perm st.mode ||| specialBits st.mode, modTime := st.modTime },
           body := [] }]) := by
  have hreg := symlink_not_regular st.mode hsym
  unfold absPathOf at hsrc
  constructor
  · intro habs
    simp [addFileToTar, hroot, hsrc, hdst, Lstat, hst, hnd, hreg, hsym, hlink, habs]
  · intro habs
    obtain ⟨tw1, h1, h2, -⟩ := WriteHeader_accepts tw
      { typeflag := TypeSymlink, name := ToSlash dst, linkname := target, size := 0,
        mode := Perm st.mode ||| specialBits st.mode, modTime := st.modTime } 0 hw
    have : addFileToTar env root src dst tw = (tw1, none) := by
      simp [addFileToTar, hroot, hsrc, hdst, Lstat, hst, hnd, hreg, hsym, hlink, habs,
        FileInfoHeader, h1]
    rw [this]
    exact ⟨rfl, h2⟩

theorem appendBody_snoc (l : List Record) (r : Record) (b : List Nat) :
    appendBody (l ++ [r]) b = l ++ [{ r with body := r.body ++ b }] := by
  induction l with
  | nil => rfl
  | cons a l ih =>
    cases l with
    | nil => rfl
    | cons a1 l1 =>
      simp only [List.cons_append] at ih ⊢
      rw [appendBody, ih]

theorem WriteHeader_ok_inv (tw tw1 : Writer) (hdr : Header)
    (h : tw.WriteHeader hdr = (tw1, none)) :
    tw1.err = none ∧ tw1.nb = (if isHeaderOnlyType hdr.typeflag then 0 else hdr.size) := by
  obtain ⟨out, nb, err, quota, trailer⟩ := tw
  cases err with
  | some e => simp [Writer.WriteHeader, Writer.Flush] at h
  | none =>
    by_cases hnb : nb > 0
    · simp [Writer.WriteHeader, Writer.Flush, hnb] at h
    · cases quota with
      | none =>
        simp [Writer.WriteHeader, Writer.Flush, hnb, Writer.rawWrite] at h
        subst h
        exact ⟨rfl, rfl⟩
      | some q =>
        cases q with
        | zero => simp [Writer.WriteHeader, Writer.Flush, hnb, Writer.rawWrite] at h
        | succ q =>
          simp [Writer.WriteHeader, Writer.Flush, hnb, Writer.rawWrite] at h
          subst h
          exact ⟨rfl, rfl⟩

theorem Write_too_long (tw : Writer) (b : List Nat) (he : tw.err = none)
    (hb : tw.nb < b.length) : (tw.Write b).2 ≠ none := by
  simp only [Writer.Write, he, gt_iff_lt, hb, decide_True, if_true]
  split
  · split <;> simp
  · simp

theorem Write_fits (tw : Writer) (b : List Nat) (he : tw.err = none) (hb : b.length ≤ tw.nb)
    (hq : tw.quota ≠ some 0) :
    (tw.Write b).2 = none ∧ (tw.Write b).1.out = appendBody tw.out b := by
  have hov : ¬ (tw.nb < b.length) := by omega
  cases b with
  | nil =>
    simp only [Writer.Write, he, List.length_nil, gt_iff_lt, Nat.not_lt_zero, decide_False,
      Bool.false_eq_true, if_false, lt_self_iff_false, true_and]
    generalize tw.out = l
    induction l with
    | nil => rfl
    | cons a l ih =>
      cases l with
      | nil => simp [appendBody]
      | cons a1 l1 => rw [appendBody, ← ih]
  | cons x xs =>
    have hr : ∃ tw1, tw.rawWrite = .ok tw1 ∧ tw1.out = tw.out := by
      unfold Writer.rawWrite
      cases hqq : tw.quota with
      | none => exact ⟨_, rfl, rfl⟩
      | some q =>
        cases q with
        | zero => exact absurd hqq hq
        | succ q => exact ⟨_, rfl, rfl⟩
    obtain ⟨tw1, hr1, hr2⟩ := hr
    have hov1 : ¬ (tw.nb < xs.length + 1) := by simpa using hov
    simp [Writer.Write, he, hr1, hr2, hov1]

theorem addFileToTar_symlink_witness :
    (IsAbs "a/f.txt" = true →
      addFileToTar scenarioEnv "/" "/tmp/l" "/opt/l" (NewWriter none) = (NewWriter none, none)) ∧
    (IsAbs "a/f.txt" = false →
      (addFileToTar scenarioEnv "/" "/tmp/l" "/opt/l" (NewWriter none)).2 = none ∧
      (addFileToTar scenarioEnv "/" "/tmp/l" "/opt/l" (NewWriter none)).1.out =
        (NewWriter none).out ++
          [{ hdr := { typeflag := TypeSymlink, name := ToSlash "/opt/l", linkname := "a/f.txt",
                      size := 0, mode := Perm linkStat.mode ||| specialBits linkStat.mode,
                      modTime := linkStat.modTime },
             body := [] }]) :=
  addFileToTar_symlink scenarioEnv "/" "/tmp/l" "/opt/l" (NewWriter none) "/" "/tmp/l" linkStat
    "a/f.txt" (by decide) (by decide) (by decide) (by decide) (by decide) (by decide)
    (by decide) (by decide)

/-- C7: for a regular file whose archive path `dst` does not end in `/` (a name `tar`
accepts for a regular file), `addFileToTar` on a writer that accepts the header and the
body returns no error and adds exactly one record, whose header carries the archive path
`dst`, the mode and the size of the file, and whose body is the content `c` of the file
(of that size); when the file cannot be opened, or a read fails, or the content is longer
than the size, `addFileToTar` returns an error. -/
theorem addFileToTar_regular (env : Env) (root src dst : String) (tw : Writer)
    (absRoot absPath : String) (st : Stat)
    (hroot : Abs env.Getwd root = .ok absRoot) (hsrc : absPathOf env src = .ok absPath)
    (hdst : dst ≠ "") (hst : env.lstat absPath = .ok st) (hreg : IsRegular st.mode = true) :
    (∀ c, env.Open absPath = .ok { data := c, readErr := none } → st.size = c.length →
      hasTrailingSlash (ToSlash dst) = false → tw.accepts 2 = true →
      (addFileToTar env root src dst tw).2 = none ∧
      (addFileToTar env root src dst tw).1.out = tw.out ++
        [{ hdr := { typeflag := TypeReg, name := ToSlash dst, linkname := "", size := c.length,
                    mode := Perm st.mode ||| specialBits st.mode, modTime := st.modTime },
           body := c }]) ∧
    (∀ m, env.Open absPath = .error m → (addFileToTar env root src dst tw).2 ≠ none) ∧
    (∀ c m, env.Open absPath = .ok { data := c, readErr := some m } →
      (addFileToTar env root src dst tw).2 ≠ none) ∧
    (∀ f, env.Open absPath = .ok f → st.size < f.data.length →
      (addFileToTar env root src dst tw).2 ≠ none) := by
  have hnd : IsDir st.mode = false := by
    have e : st.mode &&& ModeDir = (st.mode &&& ModeType) &&& ModeDir := by
      rw [Nat.land_assoc]
      have : ModeType &&& ModeDir = ModeDir := by decide
      rw [this]
    simp only [IsRegular, beq_iff_eq] at hreg
    rw [hreg] at e
    simp only [Nat.zero_and] at e
    simp [IsDir, e]
  unfold absPathOf at hsrc
  obtain ⟨hdr, hh⟩ : ∃ h : Header, h =
      { typeflag := TypeReg, name := ToSlash dst, linkname := "", size := st.size,
        mode := Perm st.mode ||| specialBits st.mode, modTime := st.modTime } := ⟨_, rfl⟩
  have hpre : addFileToTar env root src dst tw =
      (match tw.WriteHeader hdr with
        | (tw1, some err) => (tw1, some err)
        | (tw1, none) =>
          match env.Open absPath with
          | .error err => (tw1, some (.syscall err))
          | .ok f =>
            match ioCopy tw1 f with
            | (tw2, some err) => (tw2, some (.writingRealFile absPath err))
            | (tw2, none) => (tw2, none)) := by
    simp [addFileToTar, hroot, hsrc, hdst, Lstat, hst, hnd, hreg, FileInfoHeader, hh]
  rw [hpre]
  refine ⟨?_, ?_, ?_, ?_⟩
  · intro c hopen hsize _ hw
    obtain ⟨tw1, h1, h2, h3, h4, -, h6⟩ := WriteHeader_accepts tw hdr 1 hw
    rw [h1]
    simp only [hopen]
    have hnb : tw1.nb = c.length := by
      rw [h3, hh]
      simp [isHeaderOnlyType, TypeReg, TypeLink, TypeSymlink, TypeChar, TypeBlock, TypeDir,
        TypeFifo, hsize]
    have hq : tw1.quota ≠ some 0 := by
      intro h0
      rw [h0] at h6
      simp at h6
    obtain ⟨w1, w2⟩ := Write_fits tw1 c h4 (by omega) hq
    have hcopy : ioCopy tw1 { data := c, readErr := none } = ((tw1.Write c).1, none) ∨
        c = [] ∧ ioCopy tw1 { data := c, readErr := none } = (tw1, none) := by
      cases c with
      | nil => right; exact ⟨rfl, rfl⟩
      | cons x xs =>
        left
        rcases hwr : tw1.Write (x :: xs) with ⟨tw2, e⟩
        rw [hwr] at w1
        simp only at w1
        subst w1
        simp [ioCopy, hwr]
    rcases hcopy with hc | ⟨hnil, hc⟩
    · rw [hc]
      refine ⟨rfl, ?_⟩
      simp only [w2, h2, appendBody_snoc, hh, hsize, List.nil_append]
    · rw [hc]
      refine ⟨rfl, ?_⟩
      simp only [h2, hh, hsize, hnil]
  · intro m hopen
    rcases hw : tw.WriteHeader hdr with ⟨tw1, _ | e⟩ <;> simp [hopen]
  · intro c m hopen
    rcases hw : tw.WriteHeader hdr with ⟨tw1, _ | e⟩
    · simp only [hopen]
      rcases hc : ioCopy tw1 { data := c, readErr := some m } with ⟨tw2, _ | e⟩
      · exfalso
        simp only [ioCopy] at hc
        split at hc <;> simp at hc
      · simp
    · simp
  · intro f hopen hlen
    rcases hw : tw.WriteHeader hdr with ⟨tw1, _ | e⟩
    · obtain ⟨i1, i2⟩ := WriteHeader_ok_inv tw tw1 hdr hw
      have hnb : tw1.nb = st.size := by
        rw [i2, hh]
        simp [isHeaderOnlyType, TypeReg, TypeLink, TypeSymlink, TypeChar, TypeBlock, TypeDir,
          TypeFifo]
      have hlong := Write_too_long tw1 f.data i1 (by omega)
      simp only [hopen]
      rcases hc : ioCopy tw1 f with ⟨tw2, _ | e⟩
      · exfalso
        have hpos : 0 < f.data.length := by omega
        simp only [ioCopy, gt_iff_lt, hpos, if_true] at hc
        rcases hwr : tw1.Write f.data with ⟨tw3, _ | e3⟩
        · rw [hwr] at hlong
          exact hlong rfl
        · rw [hwr] at hc
          simp at hc
      · simp
    · simp

theorem addFileToTar_regular_witness :
    ((addFileToTar scenarioEnv "/" "/tmp/a/f.txt" "/opt/a/f.txt" (NewWriter none)).2 = none ∧
      (addFileToTar scenarioEnv "/" "/tmp/a/f.txt" "/opt/a/f.txt" (NewWriter none)).1.out =
        (NewWriter none).out ++
          [{ hdr := { typeflag := TypeReg, name := ToSlash "/opt/a/f.txt", linkname := "",
                      size := [104, 105].length,
                      mode := Perm fileStat.mode ||| specialBits fileStat.mode,
                      modTime := fileStat.modTime },
             body := [104, 105] }]) ∧
    (addFileToTar scenarioEnv "/" "/tmp/gone" "/opt/gone" (NewWriter none)).2 ≠ none :=
  ⟨(addFileToTar_regular scenarioEnv "/" "/tmp/a/f.txt" "/opt/a/f.txt" (NewWriter none) "/"
      "/tmp/a/f.txt" fileStat (by decide) (by decide) (by decide) (by decide) (by decide)).1
      [104, 105] (by decide) (by decide) (by decide) (by decide),
    (addFileToTar_regular scenarioEnv "/" "/tmp/gone" "/opt/gone" (NewWriter none) "/"
      "/tmp/gone" fileStat (by decide) (by decide) (by decide) (by decide) (by decide)).2.1
      "no such file or directory" (by decide)⟩

/-! ## The walk of `ListFiles` -/

theorem mem_mapSet (s : Files) (k v : String) (kv : String × String)
    (h : kv ∈ mapSet s k v) : kv ∈ s ∨ kv = (k, v) := by
  induction s with
  | nil => simpa [mapSet] using h
  | cons a s ih =>
    obtain ⟨k1, v1⟩ := a
    by_cases hk : k1 = k
    · simp only [mapSet, hk, if_true, List.mem_cons] at h
      rcases h with h | h
      · exact Or.inr h
      · exact Or.inl (List.mem_cons_of_mem _ h)
    · simp only [mapSet, hk, if_false, List.mem_cons] at h
      rcases h with h | h
      · exact Or.inl (h ▸ List.mem_cons_self _ _)
      · rcases ih h with h | h
        · exact Or.inl (List.mem_cons_of_mem _ h)
        · exact Or.inr h

/-- What one call of the closure of `ListFiles` does: it fails without touching the map, or
it adds the entry of `path`. -/
theorem listFilesFn_cases (src dest : String) (fi : FileInfo) (path : String)
    (info : Option FileInfo) (err : Option Error) (s : Files) :
    (∃ e, listFilesFn src dest fi path info err s = (s, some e) ∧
        (err = some e ∨ (err = none ∧ Rel src path = .error e))) ∨
    (∃ rel, err = none ∧ Rel src path = .ok rel ∧
        listFilesFn src dest fi path info err s =
          (mapSet s path (Join [dest, fi.name, rel]), none)) := by
  cases err with
  | some e => exact Or.inl ⟨e, rfl, Or.inl rfl⟩
  | none =>
    cases hr : Rel src path with
    | error e => exact Or.inl ⟨e, by simp [listFilesFn, hr], Or.inr ⟨rfl, rfl⟩⟩
    | ok rel => exact Or.inr ⟨rel, rfl, rfl, by simp [listFilesFn, hr]⟩

mutual
theorem walk_inv (src dest : String) (fi : FileInfo) (Q : String × String → Prop)
    (hQ : ∀ path rel, Rel src path = .ok rel → Q (path, Join [dest, fi.name, rel])) :
    ∀ (t : Tree) (path : String) (info : FileInfo) (s : Files), (∀ kv ∈ s, Q kv) →
      ∀ kv ∈ (walk (listFilesFn src dest fi) path info t s).1, Q kv
  | .node st re es, path, info, s, hs => by
    have hstep : ∀ err, ∀ kv ∈ (listFilesFn src dest fi path (some info) err s).1, Q kv := by
      intro err kv hkv
      rcases listFilesFn_cases src dest fi path (some info) err s with ⟨e, h, -⟩ | ⟨rel, -, hr, h⟩
      · rw [h] at hkv
        exact hs kv hkv
      · rw [h] at hkv
        rcases mem_mapSet _ _ _ _ hkv with h1 | h1
        · exact hs kv h1
        · rw [h1]
          exact hQ path rel hr
    rw [walk]
    split
    · exact hstep none
    · split
      next s1 err1 heq =>
        have hs1 : ∀ kv ∈ s1, Q kv := by
          have := hstep (re.map Error.syscall)
          rw [heq] at this
          exact this
        split
        · exact hs1
        · exact walkNames_inv src dest fi Q hQ es path s1 hs1
theorem walkNames_inv (src dest : String) (fi : FileInfo) (Q : String × String → Prop)
    (hQ : ∀ path rel, Rel src path = .ok rel → Q (path, Join [dest, fi.name, rel])) :
    ∀ (f : Forest) (path : String) (s : Files), (∀ kv ∈ s, Q kv) →
      ∀ kv ∈ (walkNames (listFilesFn src dest fi) path f s).1, Q kv
  | .nil, path, s, hs => by
    rw [walkNames]
    exact hs
  | .cons name t rest, path, s, hs => by
    rw [walkNames]
    simp only
    split
    next e he =>
      have hs1 : ∀ kv ∈ (listFilesFn src dest fi (Join [path, name]) none (some e) s).1,
          Q kv := by
        rcases listFilesFn_cases src dest fi (Join [path, name]) none (some e) s with
          ⟨e1, h, -⟩ | ⟨rel, h0, -, -⟩
        · rw [h]
          exact hs
        · cases h0
      split
      · exact hs1
      · exact walkNames_inv src dest fi Q hQ rest path _ hs1
    next fileInfo he =>
      have hs1 := walk_inv src dest fi Q hQ t (Join [path, name]) fileInfo s hs
      split
      · exact hs1
      · exact walkNames_inv src dest fi Q hQ rest path _ hs1
end

/-! ## Facts about `filepath.Clean` and `filepath.Join` -/

theorem cleanChars_ne_nil (l : List Char) : cleanChars l ≠ [] := by
  cases l with
  | nil => simp [cleanChars]
  | cons c l =>
    simp only [cleanChars]
    generalize cleanLoop _ _ _ _ _ = out
    by_cases h : out = [] <;> simp [h]

theorem getLast?_append_rooted (x out : List Char) (h : out.getLast? = some '/') :
    (x ++ out).getLast? = some '/' := by
  have hne : out ≠ [] := by
    intro h0
    rw [h0] at h
    simp at h
  rw [List.getLast?_append_of_ne_nil _ hne]
  exact h

theorem cleanBacktrack_rooted (dotdot : Nat) (hdd : 1 ≤ dotdot) :
    ∀ (r : List Char) (c : Char), r.getLast? = some '/' →
      (cleanBacktrack dotdot r c).getLast? = some '/'
  | [], _, h => by simp at h
  | c1 :: r, c, h => by
    rw [cleanBacktrack]
    split
    · rename_i hc
      have hlen : 1 < (c1 :: r).length := by
        simp only [Bool.and_eq_true, decide_eq_true_eq] at hc
        omega
      cases r with
      | nil => simp at hlen
      | cons c2 r2 =>
        apply cleanBacktrack_rooted dotdot hdd (c2 :: r2) c1
        simpa [List.getLast?_cons_cons] using h
    · exact h

theorem cleanLoop_rooted (dotdot : Nat) (hdd : 1 ≤ dotdot) :
    ∀ (fuel : Nat) (rest out : List Char), out.getLast? = some '/' →
      (cleanLoop true fuel rest out dotdot).getLast? = some '/'
  | 0, _, out, h => by
    rw [cleanLoop]
    exact h
  | fuel + 1, rest, out, h => by
    simp only [cleanLoop]
    split
    · exact h
    · rename_i c tl
      split
      · exact cleanLoop_rooted dotdot hdd fuel _ _ h
      · split
        · exact cleanLoop_rooted dotdot hdd fuel _ _ h
        · split
          · split
            · rename_i hlen
              apply cleanLoop_rooted dotdot hdd fuel
              apply cleanBacktrack_rooted dotdot hdd
              cases out with
              | nil => simp at h
              | cons o os =>
                cases os with
                | nil =>
                  simp only [List.length_singleton, gt_iff_lt] at hlen
                  omega
                | cons o2 os2 => simpa [List.getLast?_cons_cons] using h
            · simp only [Bool.not_true, Bool.false_eq_true, if_false]
              exact cleanLoop_rooted dotdot hdd fuel _ _ h
          · apply cleanLoop_rooted dotdot hdd fuel
            apply getLast?_append_rooted
            split
            · exact getLast?_append_rooted [Separator] out h
            · exact h

theorem cleanChars_rooted (l : List Char) : (cleanChars ('/' :: l)).head? = some '/' := by
  have h := cleanLoop_rooted 1 (le_refl 1) ('/' :: l).length l [Separator] rfl
  have hne : cleanLoop true ('/' :: l).length l [Separator] 1 ≠ [] := by
    intro h0
    rw [h0] at h
    simp at h
  have hsep : IsPathSeparator '/' = true := rfl
  simp only [cleanChars, hsep, if_true, List.tail_cons]
  split
  · rename_i hl
    exact absurd (List.length_eq_zero.mp (by simpa using hl)) hne
  · simpa [List.head?_reverse] using h

theorem Join_ne_empty (e : String) (es : List String) (he : e ≠ "") : Join (e :: es) ≠ "" := by
  have hb : (e != "") = true := by simpa using he
  rw [Join, if_pos hb]
  intro h
  have := congrArg String.data h
  exact cleanChars_ne_nil _ this

theorem Join_abs (e : String) (es : List String) (he : IsAbs e = true) :
    IsAbs (Join (e :: es)) = true := by
  obtain ⟨l⟩ := e
  cases l with
  | nil => simp [IsAbs] at he
  | cons c l =>
    have hc : c = '/' := by simpa [IsAbs] using he
    subst hc
    have hb : ((⟨'/' :: l⟩ : String) != "") = true := by
      simp only [bne_iff_ne, ne_eq]
      intro h0
      have := congrArg String.data h0
      simp at this
    rw [Join, if_pos hb]
    have hj : ∃ l1, joinSep (List.map String.data (⟨'/' :: l⟩ :: es)) = '/' :: l1 := by
      cases es with
      | nil => exact ⟨l, rfl⟩
      | cons e2 es2 => exact ⟨_, rfl⟩
    obtain ⟨l1, hl1⟩ := hj
    rw [hl1]
    have := cleanChars_rooted l1
    unfold IsAbs
    simp only
    cases hcl : cleanChars ('/' :: l1) with
    | nil => rw [hcl] at this; simp at this
    | cons a as =>
      rw [hcl] at this
      simp at this
      simp [this]

/-- C9 (as stated, refuted): for the FIFO `/tmp/p`, `addFileToTar` emits a header named `p`,
the base name filled by `tar.FileInfoHeader`, not an empty name; for the socket `/tmp/s`,
`tar.FileInfoHeader` fails and `addFileToTar` returns that error. -/
theorem addFileToTar_fifo_and_socket :
    addFileToTar scenarioEnv "/" "/tmp/p" "/opt/p" (NewWriter none) =
      ({ out := [{ hdr := { typeflag := TypeFifo, name := "p", linkname := "", size := 0,
                            mode := 420, modTime := 0 },
                   body := [] }],
         nb := 0, err := none, quota := none, trailer := false }, none) ∧
    addFileToTar scenarioEnv "/" "/tmp/s" "/opt/s" (NewWriter none) =
      (NewWriter none, some .socketsNotSupported) := by
  decide

/-- C9 (amended): for an entry that is neither directory, regular file nor symlink, a device
or a FIFO makes `addFileToTar` (on a writer that accepts a header) return no error and emit
exactly one header, named by the base name of the entry, with an empty link target and no
body; any other type makes `tar.FileInfoHeader` fail, and `addFileToTar` returns that error
without writing. -/
theorem addFileToTar_other (env : Env) (root src dst : String) (tw : Writer)
    (absRoot absPath : String) (st : Stat)
    (hroot : Abs env.Getwd root = .ok absRoot) (hsrc : absPathOf env src = .ok absPath)
    (hdst : dst ≠ "") (hst : env.lstat absPath = .ok st)
    (hnd : IsDir st.mode = false) (hnr : IsRegular st.mode = false)
    (hns : st.mode &&& ModeSymlink = 0) :
    ((st.mode &&& ModeDevice ≠ 0 ∨ st.mode &&& ModeNamedPipe ≠ 0) → tw.accepts 1 = true →
      (addFileToTar env root src dst tw).2 = none ∧
      (addFileToTar env root src dst tw).1.out = tw.out ++
        [{ hdr := { typeflag :=
                      if st.mode &&& ModeDevice ≠ 0 then
                        (if st.mode &&& ModeCharDevice ≠ 0 then TypeChar else TypeBlock)
                      else TypeFifo,
                    name := basename absPath, linkname := "", size := 0,
                    mode := Perm st.mode ||| specialBits st.mode, modTime := st.modTime },
           body := [] }]) ∧
    (st.mode &&& ModeDevice = 0 → st.mode &&& ModeNamedPipe = 0 →
      addFileToTar env root src dst tw =
        (tw, some (if st.mode &&& ModeSocket ≠ 0 then .socketsNotSupported
          else .unknownFileMode st.mode))) := by
  unfold absPathOf at hsrc
  constructor
  · intro hkind hw
    obtain ⟨tw1, h1, h2, -⟩ := WriteHeader_accepts tw
      { typeflag :=
          if st.mode &&& ModeDevice ≠ 0 then
            (if st.mode &&& ModeCharDevice ≠ 0 then TypeChar else TypeBlock)
          else TypeFifo,
        name := basename absPath, linkname := "", size := 0,
        mode := Perm st.mode ||| specialBits st.mode, modTime := st.modTime } 0 hw
    have : addFileToTar env root src dst tw = (tw1, none) := by
      rw [← h1]
      by_cases hd : st.mode &&& ModeDevice = 0
      · have hp : st.mode &&& ModeNamedPipe ≠ 0 := by
          rcases hkind with h | h
          · exact absurd hd h
          · exact h
        simp [addFileToTar, hroot, hsrc, hdst, Lstat, hst, hnd, hnr, hns, FileInfoHeader, hd,
          hp]
      · by_cases hc : st.mode &&& ModeCharDevice = 0 <;>
          simp [addFileToTar, hroot, hsrc, hdst, Lstat, hst, hnd, hnr, hns, FileInfoHeader, hd,
            hc]
    rw [this]
    exact ⟨rfl, h2⟩
  · intro hd hp
    by_cases hs : st.mode &&& ModeSocket = 0 <;>
      simp [addFileToTar, hroot, hsrc, hdst, Lstat, hst, hnd, hnr, hns, FileInfoHeader, hd,
        hp, hs]

theorem addFileToTar_other_witness :
    (addFileToTar scenarioEnv "/" "/tmp/p" "/opt/p" (NewWriter none)).2 = none ∧
    (addFileToTar scenarioEnv "/" "/tmp/p" "/opt/p" (NewWriter none)).1.out =
      (NewWriter none).out ++
        [{ hdr := { typeflag :=
                      if fifoStat.mode &&& ModeDevice ≠ 0 then
                        (if fifoStat.mode &&& ModeCharDevice ≠ 0 then TypeChar else TypeBlock)
                      else TypeFifo,
                    name := basename "/tmp/p", linkname := "", size := 0,
                    mode := Perm fifoStat.mode ||| specialBits fifoStat.mode,
                    modTime := fifoStat.modTime },
           body := [] }] :=
  (addFileToTar_other scenarioEnv "/" "/tmp/p" "/opt/p" (NewWriter none) "/" "/tmp/p" fifoStat
    (by decide) (by decide) (by decide) (by decide) (by decide) (by decide) (by decide)).1
    (Or.inr (by decide)) (by decide)

/-! ## Header names of the entries listed by `ListFiles` -/

theorem dir_not_regular (mode : Nat) (h : IsDir mode = true) : IsRegular mode = false := by
  have e : mode &&& ModeDir = (mode &&& ModeType) &&& ModeDir := by
    rw [Nat.land_assoc]
    have : ModeType &&& ModeDir = ModeDir := by decide
    rw [this]
  simp only [IsRegular, beq_eq_false_iff_ne, ne_eq]
  intro h0
  rw [h0] at e
  simp only [Nat.zero_and] at e
  simp [IsDir, e] at h

theorem addFileToTar_dir_eq (env : Env) (root src dst : String) (tw : Writer)
    (absRoot absPath : String) (st : Stat)
    (hroot : Abs env.Getwd root = .ok absRoot) (hsrc : absPathOf env src = .ok absPath)
    (hdst : dst ≠ "") (hst : env.lstat absPath = .ok st) (hd : IsDir st.mode = true) :
    addFileToTar env root src dst tw =
      tw.WriteHeader
        { typeflag := TypeDir, name := ToSlash dst, linkname := "", size := 0,
          mode := Perm st.mode ||| specialBits st.mode, modTime := st.modTime } := by
  unfold absPathOf at hsrc
  have hreg := dir_not_regular st.mode hd
  simp [addFileToTar, hroot, hsrc, hdst, Lstat, hst, hd, hreg, FileInfoHeader]

theorem addFileToTar_link_eq (env : Env) (root src dst : String) (tw : Writer)
    (absRoot absPath : String) (st : Stat) (target : String)
    (hroot : Abs env.Getwd root = .ok absRoot) (hsrc : absPathOf env src = .ok absPath)
    (hdst : dst ≠ "") (hst : env.lstat absPath = .ok st)
    (hsym : st.mode &&& ModeSymlink ≠ 0) (hnd : IsDir st.mode = false)
    (hlink : env.Readlink absPath = .ok target) (habs : IsAbs target = false) :
    addFileToTar env root src dst tw =
      tw.WriteHeader
        { typeflag := TypeSymlink, name := ToSlash dst, linkname := target, size := 0,
          mode := Perm st.mode ||| specialBits st.mode, modTime := st.modTime } := by
  unfold absPathOf at hsrc
  have hreg := symlink_not_regular st.mode hsym
  simp [addFileToTar, hroot, hsrc, hdst, Lstat, hst, hnd, hreg, hsym, hlink, habs,
    FileInfoHeader]

theorem addFileToTar_file_eq (env : Env) (root src dst : String) (tw : Writer)
    (absRoot absPath : String) (st : Stat)
    (hroot : Abs env.Getwd root = .ok absRoot) (hsrc : absPathOf env src = .ok absPath)
    (hdst : dst ≠ "") (hst : env.lstat absPath = .ok st) (hnd : IsDir st.mode = false)
    (hreg : IsRegular st.mode = true) :
    addFileToTar env root src dst tw =
      (match tw.WriteHeader
          { typeflag := TypeReg, name := ToSlash dst, linkname := "", size := st.size,
            mode := Perm st.mode ||| specialBits st.mode, modTime := st.modTime } with
        | (tw1, some err) => (tw1, some err)
        | (tw1, none) =>
          match env.Open absPath with
          | .error err => (tw1, some (.syscall err))
          | .ok f =>
            match ioCopy tw1 f with
            | (tw2, some err) => (tw2, some (.writingRealFile absPath err))
            | (tw2, none) => (tw2, none)) := by
  unfold absPathOf at hsrc
  simp [addFileToTar, hroot, hsrc, hdst, Lstat, hst, hnd, hreg, FileInfoHeader]

theorem rawWrite_out (tw tw1 : Writer) (h : tw.rawWrite = .ok tw1) : tw1.out = tw.out := by
  unfold Writer.rawWrite at h
  split at h
  · cases h; rfl
  · cases h
  · cases h; rfl

theorem Write_out (tw : Writer) (b : List Nat) :
    ∃ b1, (tw.Write b).1.out = appendBody tw.out b1 ∨ (tw.Write b).1.out = tw.out := by
  refine ⟨if b.length > tw.nb then b.take tw.nb else b, ?_⟩
  rcases he : tw.err with _ | e
  · rcases hr : tw.rawWrite with e | tw1
    · right
      simp only [Writer.Write, he, hr]
      split_ifs <;> rfl
    · have ho := rawWrite_out tw tw1 hr
      simp only [Writer.Write, he, hr, ho]
      split_ifs <;> simp
  · right
    simp [Writer.Write, he]

theorem ioCopy_out (tw : Writer) (f : File) (l : List Record) (r : Record)
    (h : tw.out = l ++ [r]) :
    ∃ b, (ioCopy tw f).1.out = l ++ [{ r with body := b }] := by
  have key : ∃ b, (if f.data.length > 0 then tw.Write f.data else (tw, none)).1.out =
      l ++ [{ r with body := b }] := by
    split
    · obtain ⟨b1, h1 | h1⟩ := Write_out tw f.data
      · exact ⟨r.body ++ b1, by rw [h1, h, appendBody_snoc]⟩
      · exact ⟨r.body, by rw [h1, h]⟩
    · exact ⟨r.body, h⟩
  obtain ⟨b, hb⟩ := key
  refine ⟨b, ?_⟩
  unfold ioCopy
  split
  · rename_i tw1 ew heq
    rw [heq] at hb
    exact hb
  · rename_i tw1 heq
    rw [heq] at hb
    exact hb

theorem Walk_fst {σ : Type} (fn : WalkFunc σ) (root : String) (fs : Tree) (s : σ)
    (info : FileInfo) (h : Lstat fs.lstat root = .ok info) :
    (Walk fn root fs s).1 = (walk fn root info fs s).1 := by
  simp only [Walk, h]
  split <;> rfl

/-- Every archive path listed by `ListFiles` is `Join` of `dest` and further elements. -/
theorem ListFiles_values (fs : Tree) (src dest : String) (files : Files) (e : Option Error)
    (h : ListFiles fs src dest = (some files, e)) :
    ∀ kv ∈ files, ∃ es, kv.2 = Join (dest :: es) := by
  unfold ListFiles at h
  simp only at h
  split at h
  · cases h
  · rename_i fi hfi
    split at h
    · cases h
      intro kv hkv
      simp only [mapSet, List.mem_singleton] at hkv
      exact ⟨[fi.name], by rw [hkv]⟩
    · simp only [bne_self_eq_false, Bool.false_eq_true, if_false] at h
      cases h
      have hw := walk_inv src dest fi (fun kv => ∃ es, kv.2 = Join (dest :: es))
        (fun path rel _ => ⟨[fi.name, rel], rfl⟩) fs src fi [] (by simp)
      intro kv hkv
      apply hw kv
      rw [Walk_fst _ _ _ _ fi hfi] at hkv
      exact hkv

/-- C4 (as stated, refuted): in the scenario `src = /tmp/a`, `dest = /opt`, the names in the
emitted headers are the whole archive paths `/opt/a`, `/opt/a/f.txt`, `/opt/a/sub`: each
begins with `/`, and they are not `a`, `a/f.txt`, `a/sub`. -/
theorem scenario_header_names :
    ListFiles tmpA "/tmp/a" "/opt" = (some scenarioFiles, none) ∧
    (createMappedTar scenarioEnv none "/" scenarioFiles).2 = none ∧
    (createMappedTar scenarioEnv none "/" scenarioFiles).1.out.map (fun r => r.hdr.name) =
      ["/opt/a", "/opt/a/f.txt", "/opt/a/sub"] ∧
    ((createMappedTar scenarioEnv none "/" scenarioFiles).1.out.map
      (fun r => r.hdr.name)).all IsAbs = true := by
  decide

/-- C4 (amended): for every entry `(p, d)` of a map returned by `ListFiles` (for a non-empty
`dest`) that `addFileToTar` archives under root `/` as a directory, a regular file or a
relative symlink, the name recorded in the emitted header is the forward-slash form of the
whole archive path `d`, destination root included: it begins with `/` whenever `dest` is
absolute. -/
theorem header_name_of_entry (fs : Tree) (src dest : String) (files : Files)
    (e : Option Error) (p d : String) (env : Env) (tw : Writer) (absPath : String) (st : Stat)
    (hdest : dest ≠ "") (hlist : ListFiles fs src dest = (some files, e))
    (hmem : (p, d) ∈ files) (hsrc : absPathOf env p = .ok absPath)
    (hst : env.lstat absPath = .ok st)
    (hkind : IsDir st.mode = true ∨ IsRegular st.mode = true ∨
      (st.mode &&& ModeSymlink ≠ 0 ∧
        ∃ target, env.Readlink absPath = .ok target ∧ IsAbs target = false))
    (hw : tw.accepts 1 = true) :
    ∃ r, (addFileToTar env "/" p d tw).1.out = tw.out ++ [r] ∧ r.hdr.name = ToSlash d ∧
      (IsAbs dest = true → IsAbs r.hdr.name = true) := by
  obtain ⟨es, hes⟩ := ListFiles_values fs src dest files e hlist (p, d) hmem
  simp only at hes
  have hd : d ≠ "" := by
    rw [hes]
    exact Join_ne_empty dest es hdest
  have habs : IsAbs dest = true → IsAbs (ToSlash d) = true := by
    intro h
    rw [hes]
    exact Join_abs dest es h
  have hroot : Abs env.Getwd "/" = .ok "/" := rfl
  by_cases hdir : IsDir st.mode = true
  · rw [addFileToTar_dir_eq env "/" p d tw "/" absPath st hroot hsrc hd hst hdir]
    obtain ⟨tw1, h1, h2, -⟩ := WriteHeader_accepts tw
      { typeflag := TypeDir, name := ToSlash d, linkname := "", size := 0,
        mode := Perm st.mode ||| specialBits st.mode, modTime := st.modTime } 0 hw
    rw [h1]
    exact ⟨_, h2, rfl, habs⟩
  · have hnd : IsDir st.mode = false := by simpa using hdir
    by_cases hreg : IsRegular st.mode = true
    · rw [addFileToTar_file_eq env "/" p d tw "/" absPath st hroot hsrc hd hst hnd hreg]
      obtain ⟨tw1, h1, h2, -⟩ := WriteHeader_accepts tw
        { typeflag := TypeReg, name := ToSlash d, linkname := "", size := st.size,
          mode := Perm st.mode ||| specialBits st.mode, modTime := st.modTime } 0 hw
      rw [h1]
      simp only
      cases hopen : env.Open absPath with
      | error m => exact ⟨_, h2, rfl, habs⟩
      | ok f =>
        simp only
        obtain ⟨b, hb⟩ := ioCopy_out tw1 f _ _ h2
        rcases hc : ioCopy tw1 f with ⟨tw2, _ | e2⟩ <;>
          · rw [hc] at hb
            exact ⟨_, hb, rfl, habs⟩
    · rcases hkind with h | h | ⟨hsym, target, hlink, hrel⟩
      · exact absurd h hdir
      · exact absurd h hreg
      · rw [addFileToTar_link_eq env "/" p d tw "/" absPath st target hroot hsrc hd hst hsym
          hnd hlink hrel]
        obtain ⟨tw1, h1, h2, -⟩ := WriteHeader_accepts tw
          { typeflag := TypeSymlink, name := ToSlash d, linkname := target, size := 0,
            mode := Perm st.mode ||| specialBits st.mode, modTime := st.modTime } 0 hw
        rw [h1]
        exact ⟨_, h2, rfl, habs⟩

theorem header_name_of_entry_witness :
    ∃ r, (addFileToTar scenarioEnv "/" "/tmp/a/f.txt" "/opt/a/f.txt" (NewWriter none)).1.out =
        (NewWriter none).out ++ [r] ∧ r.hdr.name = ToSlash "/opt/a/f.txt" ∧
      (IsAbs "/opt" = true → IsAbs r.hdr.name = true) :=
  header_name_of_entry tmpA "/tmp/a" "/opt" scenarioFiles none "/tmp/a/f.txt" "/opt/a/f.txt"
    scenarioEnv (NewWriter none) "/tmp/a/f.txt" fileStat (by decide) (by decide) (by decide)
    (by decide) (by decide) (Or.inr (Or.inl (by decide))) (by decide)

/-! ## The producer task of `CopyFiles` -/

theorem addFileToTar_open_fails (env : Env) (src dst : String) (tw : Writer) (st : Stat)
    (m : Errno) (habs : IsAbs src = true) (hst : env.lstat src = .ok st)
    (hreg : IsRegular st.mode = true) (hopen : env.Open src = .error m) :
    (addFileToTar env "/" src dst tw).2 ≠ none := by
  have hnd : IsDir st.mode = false := by
    cases h : IsDir st.mode with
    | false => rfl
    | true =>
      have := dir_not_regular st.mode h
      rw [hreg] at this
      cases this
  have hroot : Abs env.Getwd "/" = .ok "/" := rfl
  unfold addFileToTar
  simp only [hroot, habs, if_true]
  split
  · simp
  · simp only [Lstat, hst, hnd, hreg, Bool.false_eq_true, if_false, if_true, FileInfoHeader]
    split
    · simp
    · simp [hopen]

theorem addFiles_fails (env : Env) (root src dst : String)
    (hfail : ∀ tw, (addFileToTar env root src dst tw).2 ≠ none) :
    ∀ (files : Files) (tw : Writer), (src, dst) ∈ files → (addFiles env root files tw).2 ≠ none
  | [], _, h => by simp at h
  | (s1, d1) :: rest, tw, h => by
    rw [addFiles]
    rcases hr : addFileToTar env root s1 d1 tw with ⟨tw1, _ | e⟩
    · simp only
      rcases List.mem_cons.mp h with h1 | h1
      · cases h1
        have := hfail tw
        rw [hr] at this
        exact absurd rfl this
      · exact addFiles_fails env root src dst hfail rest tw1 h1
    · simp

/-- C6 (as stated, refuted): `/tmp/gone` is listed but cannot be opened any more, so
`createMappedTar` fails in the producer; the producer then ends the process with status 1
through `logrus.Fatal`, its deferred `writer.Close()` does not run and it does not return. -/
theorem producer_unreadable_file :
    (createMappedTar scenarioEnv none "/"
      [("/tmp/a", "/opt/a"), ("/tmp/gone", "/opt/gone")]).2 =
        some (.syscall "no such file or directory") ∧
    (producer scenarioEnv none [("/tmp/a", "/opt/a"), ("/tmp/gone", "/opt/gone")]).exit =
      some 1 ∧
    (producer scenarioEnv none
      [("/tmp/a", "/opt/a"), ("/tmp/gone", "/opt/gone")]).pipeClosed = false := by
  decide

/-- C6 (amended): when `createMappedTar` fails in the producer task, as it does when a
listed regular file cannot be opened, the producer reports the failure through
`logrus.Fatal`, which ends the whole process with exit status 1, so that `CopyFiles` returns
nothing to its caller; when `createMappedTar` succeeds, the producer returns and its
deferred `writer.Close()` closes the write end of the pipe. Either way the deferred
`tw.Close()` of `createMappedTar` has run, leaving the `tar.Writer` closed or failed. -/
theorem producer_ends (env : Env) (writer : Option Nat) (files : Files) :
    ((createMappedTar env writer "/" files).2 ≠ none →
      (producer env writer files).exit = some 1) ∧
    ((createMappedTar env writer "/" files).2 = none →
      (producer env writer files).exit = none ∧
        (producer env writer files).pipeClosed = true) ∧
    (∀ src dst st m, (src, dst) ∈ files → IsAbs src = true → env.lstat src = .ok st →
      IsRegular st.mode = true → env.Open src = .error m →
      (createMappedTar env writer "/" files).2 ≠ none) ∧
    (producer env writer files).archive.err ≠ none := by
  refine ⟨?_, ?_, ?_, ?_⟩
  · intro h
    unfold producer
    split
    · rfl
    · rename_i tw heq
      rw [heq] at h
      exact absurd rfl h
  · intro h
    unfold producer
    split
    · rename_i tw e heq
      rw [heq] at h
      cases h
    · exact ⟨rfl, rfl⟩
  · intro src dst st m hmem habs hst hreg hopen
    have := addFiles_fails env "/" src dst
      (fun tw => addFileToTar_open_fails env src dst tw st m habs hst hreg hopen) files
      (NewWriter writer) hmem
    unfold createMappedTar
    exact this
  · have hclose : ∀ tw : Writer, (tw.Close).1.err ≠ none := by
      intro tw
      unfold Writer.Close
      split
      · rename_i h
        simp [h]
      · split
        · rename_i e he
          simp [he]
        · split
          · simp
          · split <;> simp
    have harch : (producer env writer files).archive =
        (createMappedTar env writer "/" files).1 := by
      unfold producer
      split <;> (rename_i heq; rw [heq])
    rw [harch]
    unfold createMappedTar
    exact hclose _

theorem producer_ends_witness :
    (createMappedTar scenarioEnv none "/"
        [("/tmp/a", "/opt/a"), ("/tmp/gone", "/opt/gone")]).2 ≠ none ∧
    (producer scenarioEnv none [("/tmp/a", "/opt/a"), ("/tmp/gone", "/opt/gone")]).exit =
      some 1 ∧
    ((producer scenarioEnv none scenarioFiles).exit = none ∧
      (producer scenarioEnv none scenarioFiles).pipeClosed = true) :=
  ⟨(producer_ends scenarioEnv none [("/tmp/a", "/opt/a"), ("/tmp/gone", "/opt/gone")]).2.2.1
      "/tmp/gone" "/opt/gone" fileStat "no such file or directory" (by decide) (by decide)
      (by decide) (by decide) (by decide),
    (producer_ends scenarioEnv none [("/tmp/a", "/opt/a"), ("/tmp/gone", "/opt/gone")]).1
      (by decide),
    (producer_ends scenarioEnv none scenarioFiles).2.1 (by decide)⟩

/-! ## The key set of the map built by the walk -/

theorem Rel_error_form (a b : String) (e : Error) (h : Rel a b = .error e) :
    e = .rel b a := by
  unfold Rel at h
  simp only at h
  split_ifs at h
  all_goals (injection h with h; exact h.symm)

theorem listFilesFn_err (src dest : String) (fi : FileInfo) (path : String)
    (info : Option FileInfo) (err : Option Error) (s : Files)
    (herr : err ≠ some .skipDir ∧ err ≠ some .skipAll) :
    (listFilesFn src dest fi path info err s).2 ≠ some .skipDir ∧
      (listFilesFn src dest fi path info err s).2 ≠ some .skipAll := by
  rcases listFilesFn_cases src dest fi path info err s with ⟨e, h, h1 | ⟨-, h1⟩⟩ | ⟨rel, -, -, h⟩
  · rw [h, ← h1]
    exact herr
  · rw [h, Rel_error_form _ _ _ h1]
    simp
  · rw [h]
    simp

theorem syscall_not_skip (re : Option Errno) :
    re.map Error.syscall ≠ some .skipDir ∧ re.map Error.syscall ≠ some .skipAll := by
  cases re <;> simp

mutual
theorem walk_not_skip (src dest : String) (fi : FileInfo) :
    ∀ (t : Tree) (path : String) (info : FileInfo) (s : Files),
      (walk (listFilesFn src dest fi) path info t s).2 ≠ some .skipDir ∧
        (walk (listFilesFn src dest fi) path info t s).2 ≠ some .skipAll
  | .node st re es, path, info, s => by
    rw [walk]
    split
    · exact listFilesFn_err src dest fi path (some info) none s (by simp)
    · split
      next s1 err1 heq =>
        have h := listFilesFn_err src dest fi path (some info) (re.map Error.syscall) s
          (syscall_not_skip re)
        rw [heq] at h
        split
        · exact h
        · exact walkNames_not_skip src dest fi es path s1
theorem walkNames_not_skip (src dest : String) (fi : FileInfo) :
    ∀ (f : Forest) (path : String) (s : Files),
      (walkNames (listFilesFn src dest fi) path f s).2 ≠ some .skipDir ∧
        (walkNames (listFilesFn src dest fi) path f s).2 ≠ some .skipAll
  | .nil, path, s => by
    rw [walkNames]
    simp
  | .cons name t rest, path, s => by
    rw [walkNames]
    simp only
    split
    next e he =>
      have he1 : some e ≠ some Error.skipDir ∧ some e ≠ some Error.skipAll := by
        unfold Lstat at he
        split at he
        · cases he; simp
        · cases he
      split
      · exact listFilesFn_err src dest fi (Join [path, name]) none (some e) s he1
      · exact walkNames_not_skip src dest fi rest path _
    next fileInfo he =>
      split
      · exact walk_not_skip src dest fi t (Join [path, name]) fileInfo s
      · exact walkNames_not_skip src dest fi rest path _
end

mutual
theorem walk_state_inv (src dest : String) (fi : FileInfo) (P : Files → Prop)
    (hP : ∀ s path rel, Rel src path = .ok rel → P s →
      P (mapSet s path (Join [dest, fi.name, rel]))) :
    ∀ (t : Tree) (path : String) (info : FileInfo) (s : Files), P s →
      P (walk (listFilesFn src dest fi) path info t s).1
  | .node st re es, path, info, s, hs => by
    have hstep : ∀ err, P (listFilesFn src dest fi path (some info) err s).1 := by
      intro err
      rcases listFilesFn_cases src dest fi path (some info) err s with ⟨e, h, -⟩ | ⟨rel, -, hr, h⟩
      · rw [h]
        exact hs
      · rw [h]
        exact hP s path rel hr hs
    rw [walk]
    split
    · exact hstep none
    · split
      next s1 err1 heq =>
        have hs1 : P s1 := by
          have := hstep (re.map Error.syscall)
          rw [heq] at this
          exact this
        split
        · exact hs1
        · exact walkNames_state_inv src dest fi P hP es path s1 hs1
theorem walkNames_state_inv (src dest : String) (fi : FileInfo) (P : Files → Prop)
    (hP : ∀ s path rel, Rel src path = .ok rel → P s →
      P (mapSet s path (Join [dest, fi.name, rel]))) :
    ∀ (f : Forest) (path : String) (s : Files), P s →
      P (walkNames (listFilesFn src dest fi) path f s).1
  | .nil, path, s, hs => by
    rw [walkNames]
    exact hs
  | .cons name t rest, path, s, hs => by
    rw [walkNames]
    simp only
    split
    next e he =>
      have hs1 : P (listFilesFn src dest fi (Join [path, name]) none (some e) s).1 := by
        rcases listFilesFn_cases src dest fi (Join [path, name]) none (some e) s with
          ⟨e1, h, -⟩ | ⟨rel, h0, -, -⟩
        · rw [h]
          exact hs
        · cases h0
      split
      · exact hs1
      · exact walkNames_state_inv src dest fi P hP rest path _ hs1
    next fileInfo he =>
      have hs1 := walk_state_inv src dest fi P hP t (Join [path, name]) fileInfo s hs
      split
      · exact hs1
      · exact walkNames_state_inv src dest fi P hP rest path _ hs1
end

theorem mapKeys_mapSet (s : Files) (k v p : String) :
    p ∈ mapKeys (mapSet s k v) ↔ p ∈ mapKeys s ∨ p = k := by
  induction s with
  | nil => simp [mapSet, mapKeys]
  | cons a s ih =>
    obtain ⟨k1, v1⟩ := a
    by_cases hk : k1 = k
    · subst hk
      simp only [mapSet, if_true, mapKeys, List.map_cons, List.mem_cons]
      tauto
    · simp only [mapKeys] at ih
      simp only [mapSet, hk, if_false, mapKeys, List.map_cons, List.mem_cons, ih]
      tauto

theorem nodup_mapSet (s : Files) (k v : String) (h : (mapKeys s).Nodup) :
    (mapKeys (mapSet s k v)).Nodup := by
  induction s with
  | nil => simp [mapSet, mapKeys]
  | cons a s ih =>
    obtain ⟨k1, v1⟩ := a
    simp only [mapKeys, List.map_cons, List.nodup_cons] at h
    by_cases hk : k1 = k
    · subst hk
      simp only [mapSet, if_true, mapKeys, List.map_cons, List.nodup_cons]
      exact h
    · simp only [mapSet, hk, if_false, mapKeys, List.map_cons, List.nodup_cons]
      refine ⟨?_, ih h.2⟩
      intro hmem
      have := (mapKeys_mapSet s k v k1).mp hmem
      rcases this with h1 | h1
      · exact h.1 h1
      · exact hk h1

/-- A successful call of the closure of `ListFiles` adds exactly the key `path`. -/
theorem listFilesFn_keys (src dest : String) (fi : FileInfo) (path : String)
    (info : Option FileInfo) (err : Option Error) (s : Files)
    (h : (listFilesFn src dest fi path info err s).2 = none) :
    err = none ∧
      ∀ p, p ∈ mapKeys (listFilesFn src dest fi path info err s).1 ↔ p ∈ mapKeys s ∨ p = path := by
  rcases listFilesFn_cases src dest fi path info err s with ⟨e, h1, -⟩ | ⟨rel, h0, -, h1⟩
  · rw [h1] at h
    cases h
  · rw [h1]
    exact ⟨h0, fun p => mapKeys_mapSet s path _ p⟩

mutual
theorem walk_keys (src dest : String) (fi : FileInfo) :
    ∀ (t : Tree) (path : String) (info : FileInfo) (s : Files),
      Lstat t.lstat path = .ok info →
      (walk (listFilesFn src dest fi) path info t s).2 = none →
      ∀ p, p ∈ mapKeys (walk (listFilesFn src dest fi) path info t s).1 ↔
        p ∈ mapKeys s ∨ p ∈ subtreePaths path t
  | .node st re es, path, info, s, hinfo, hok => by
    obtain ⟨s0, hs0, hmode⟩ : ∃ s0, st = .ok s0 ∧ info.mode = s0.mode := by
      cases st with
      | error m => simp [Lstat, Tree.lstat] at hinfo
      | ok s0 =>
        simp only [Lstat, Tree.lstat, Except.ok.injEq] at hinfo
        exact ⟨s0, rfl, by rw [← hinfo]⟩
    subst hs0
    rw [walk] at hok ⊢
    rw [subtreePaths]
    simp only [← hmode]
    split at hok
    · rename_i hnd
      have hnd1 : IsDir info.mode = false := by simpa using hnd
      simp only [hnd, if_true, hnd1, Bool.false_eq_true, if_false, List.mem_singleton]
      exact (listFilesFn_keys src dest fi path (some info) none s hok).2
    · rename_i hnd
      have hd1 : IsDir info.mode = true := by simpa using hnd
      simp only [hnd, if_false, hd1, if_true, List.mem_cons]
      split at hok
      rename_i s1 err1 heq
      simp only [heq]
      split at hok
      · rename_i hcond
        simp only at hok
        subst hok
        have hk := listFilesFn_keys src dest fi path (some info) (re.map Error.syscall) s
          (by rw [heq])
        have hre : re = none := by
          cases re with
          | none => rfl
          | some m => simp at hk
        simp [hre] at hcond
      · rename_i hcond
        simp only [Bool.or_eq_true, bne_iff_ne, ne_eq, not_or, not_not] at hcond
        obtain ⟨hre, herr1⟩ := hcond
        subst hre herr1
        simp only [bne_self_eq_false, Bool.or_self, Bool.false_eq_true, if_false]
        have hk := (listFilesFn_keys src dest fi path (some info) none s
          (by simp only [Option.map_none'] at heq; rw [heq])).2
        simp only [Option.map_none'] at heq
        rw [heq] at hk
        intro p
        have h1 := walkNames_keys src dest fi es path s1 hok p
        have h2 := hk p
        simp only at h2
        simp only [Bool.not_true, Bool.false_eq_true, if_false]
        rw [h1, h2]
        tauto
theorem walkNames_keys (src dest : String) (fi : FileInfo) :
    ∀ (f : Forest) (path : String) (s : Files),
      (walkNames (listFilesFn src dest fi) path f s).2 = none →
      ∀ p, p ∈ mapKeys (walkNames (listFilesFn src dest fi) path f s).1 ↔
        p ∈ mapKeys s ∨ p ∈ entryPaths path f
  | .nil, path, s, _ => by
    intro p
    rw [walkNames, entryPaths]
    simp
  | .cons name t rest, path, s, hok => by
    rw [walkNames] at hok ⊢
    rw [entryPaths]
    simp only at hok ⊢
    split at hok
    · rename_i e he
      exfalso
      have he1 : ∃ m, e = .syscall m := by
        unfold Lstat at he
        split at he
        · cases he; exact ⟨_, rfl⟩
        · cases he
      obtain ⟨m, rfl⟩ := he1
      rcases listFilesFn_cases src dest fi (Join [path, name]) none (some (.syscall m)) s with
        ⟨e1, h, h1 | ⟨h1, -⟩⟩ | ⟨rel, h0, -, -⟩
      · cases h1
        simp [h] at hok
      · cases h1
      · cases h0
    · rename_i fileInfo he
      try simp only [he]
      have hns := walk_not_skip src dest fi t (Join [path, name]) fileInfo s
      split at hok
      · rename_i hcond
        exfalso
        simp only [Bool.and_eq_true, bne_iff_ne, ne_eq] at hcond
        exact hcond.1 hok
      · rename_i hcond
        have hw : (walk (listFilesFn src dest fi) (Join [path, name]) fileInfo t s).2 = none := by
          by_contra hne
          apply hcond
          simp only [Bool.and_eq_true, bne_iff_ne, ne_eq, Bool.or_eq_true, Bool.not_eq_true']
          exact ⟨hne, Or.inr hns.1⟩
        simp only [hcond, Bool.false_eq_true, if_false]
        intro p
        rw [walkNames_keys src dest fi rest path _ hok p,
          walk_keys src dest fi t (Join [path, name]) fileInfo s he hw p]
        simp only [List.mem_append]
        tauto
end

/-! ## A trailing `.` element does not change `filepath.Clean` -/

theorem cleanLoop_nil (rooted : Bool) (fuel : Nat) (out : List Char) (dotdot : Nat) :
    cleanLoop rooted fuel [] out dotdot = out := by
  cases fuel <;> simp [cleanLoop]

theorem takeWhile_append_stop (p : Char → Bool) (a : Char) (s : List Char) (hp : p a = false) :
    ∀ l : List Char, List.takeWhile p (l ++ a :: s) = List.takeWhile p l
  | [] => by simp [List.takeWhile, hp]
  | x :: l => by
    cases hx : p x
    · simp [List.takeWhile, hx]
    · simp [List.takeWhile, hx, takeWhile_append_stop p a s hp l]

theorem dropWhile_append_stop (p : Char → Bool) (a : Char) (s : List Char) (hp : p a = false) :
    ∀ l : List Char, List.dropWhile p (l ++ a :: s) = List.dropWhile p l ++ a :: s
  | [] => by simp [List.dropWhile, hp]
  | x :: l => by
    cases hx : p x
    · simp [List.dropWhile, hx]
    · simp [List.dropWhile, hx, dropWhile_append_stop p a s hp l]

theorem cleanLoop_dot_suffix (rooted : Bool) :
    ∀ (f1 f2 : Nat) (rest out : List Char) (dotdot : Nat), rest.length ≤ f1 →
      rest.length + 2 ≤ f2 →
      cleanLoop rooted f2 (rest ++ ['/', '.']) out dotdot = cleanLoop rooted f1 rest out dotdot
  | f1, f2, [], out, dotdot, _, h2 => by
    obtain ⟨k, rfl⟩ : ∃ k, f2 = k + 2 := ⟨f2 - 2, by simp at h2; omega⟩
    rw [cleanLoop_nil]
    simp [cleanLoop, IsPathSeparator, Separator, cleanLoop_nil]
  | 0, _, c :: tl, _, _, h1, _ => by simp at h1
  | n + 1, f2, c :: tl, out, dotdot, h1, h2 => by
    obtain ⟨m, rfl⟩ : ∃ m, f2 = m + 1 := ⟨f2 - 1, by simp at h2; omega⟩
    have hl1 : tl.length ≤ n := by simpa using h1
    have hl2 : tl.length + 2 ≤ m := by simp at h2; omega
    have hc1 : ((tl ++ ['/', '.']).isEmpty || IsPathSeparator ((tl ++ ['/', '.']).headD 'x')) =
        (tl.isEmpty || IsPathSeparator (tl.headD 'x')) := by
      cases tl <;> simp [IsPathSeparator, Separator]
    have hc2 : ((tl ++ ['/', '.']).headD 'x' == '.' &&
          ((tl ++ ['/', '.']).tail.isEmpty ||
            IsPathSeparator ((tl ++ ['/', '.']).tail.headD 'x'))) =
        (tl.headD 'x' == '.' && (tl.tail.isEmpty || IsPathSeparator (tl.tail.headD 'x'))) := by
      cases tl with
      | nil => simp [IsPathSeparator, Separator]
      | cons d tl1 => cases tl1 <;> simp [IsPathSeparator, Separator]
    have hsep : IsPathSeparator '/' = true := rfl
    have hstop : (fun x => !IsPathSeparator x) '/' = false := rfl
    have htake : List.takeWhile (fun x => !IsPathSeparator x) (c :: (tl ++ ['/', '.'])) =
        List.takeWhile (fun x => !IsPathSeparator x) (c :: tl) :=
      takeWhile_append_stop _ '/' ['.'] hstop (c :: tl)
    have hdrop : List.dropWhile (fun x => !IsPathSeparator x) (c :: (tl ++ ['/', '.'])) =
        List.dropWhile (fun x => !IsPathSeparator x) (c :: tl) ++ ['/', '.'] :=
      dropWhile_append_stop _ '/' ['.'] hstop (c :: tl)
    simp only [cleanLoop, List.cons_append, Bool.and_assoc, hc1, hc2, htake, hdrop]
    split
    · exact cleanLoop_dot_suffix rooted n m tl out dotdot hl1 hl2
    · rename_i hns
      split
      · exact cleanLoop_dot_suffix rooted n m tl out dotdot hl1 hl2
      · split
        · rename_i hdd
          obtain ⟨d, tl1, rfl⟩ : ∃ d tl1, tl = d :: tl1 := by
            cases tl with
            | nil => simp at hdd
            | cons d tl1 => exact ⟨d, tl1, rfl⟩
          have hl3 : tl1.length ≤ n := by simp at hl1; omega
          have hl4 : tl1.length + 2 ≤ m := by simp at hl2; omega
          simp only [List.cons_append, List.tail_cons]
          split
          · exact cleanLoop_dot_suffix rooted n m tl1 _ dotdot hl3 hl4
          · split
            · exact cleanLoop_dot_suffix rooted n m tl1 _ _ hl3 hl4
            · exact cleanLoop_dot_suffix rooted n m tl1 _ dotdot hl3 hl4
        · have hlen : (List.dropWhile (fun x => !IsPathSeparator x) (c :: tl)).length ≤
              tl.length := by
            have hc : IsPathSeparator c = false := by simpa using hns
            have : List.dropWhile (fun x => !IsPathSeparator x) (c :: tl) =
                List.dropWhile (fun x => !IsPathSeparator x) tl := by
              simp [List.dropWhile, hc]
            rw [this]
            exact (List.dropWhile_sublist _).length_le
          exact cleanLoop_dot_suffix rooted n m _ _ dotdot (by omega) (by omega)

theorem cleanChars_dot_suffix (l : List Char) (hl : l ≠ []) :
    cleanChars (l ++ ['/', '.']) = cleanChars l := by
  obtain ⟨c, l1, rfl⟩ : ∃ c l1, l = c :: l1 := by
    cases l with
    | nil => exact absurd rfl hl
    | cons c l1 => exact ⟨c, l1, rfl⟩
  simp only [cleanChars, List.cons_append, List.tail_cons, List.length_cons, List.length_append,
    List.length_nil]
  cases hc : IsPathSeparator c
  · have := cleanLoop_dot_suffix false (l1.length + 1) (l1.length + (0 + 1 + 1) + 1) (c :: l1)
      [] 0 (by simp) (by simp)
    simp only [Bool.false_eq_true, if_false, List.cons_append] at this ⊢
    rw [this]
  · have := cleanLoop_dot_suffix true (l1.length + 1) (l1.length + (0 + 1 + 1) + 1) l1
      [Separator] 1 (by simp) (by omega)
    simp only [if_true] at this ⊢
    rw [this]

theorem Join_dot (d b : String) (hb : b ≠ "") : Join [d, b, "."] = Join [d, b] := by
  have hbd : b.data ≠ [] := by
    intro h
    apply hb
    cases b
    simp only at h
    subst h
    rfl
  have hb1 : (b != "") = true := by simpa using hb
  by_cases hd : d = ""
  · subst hd
    have h0 : (("" : String) != "") = false := by decide
    simp only [Join, h0, hb1, Bool.false_eq_true, if_false, if_true, List.map_cons, List.map_nil,
      joinSep]
    have := cleanChars_dot_suffix b.data hbd
    simp only [Separator] at this ⊢
    rw [← this]
  · have hd1 : (d != "") = true := by simpa using hd
    simp only [Join, hd1, if_true, List.map_cons, List.map_nil, joinSep]
    have := cleanChars_dot_suffix (d.data ++ Separator :: b.data) (by simp)
    rw [← this]
    simp [Separator]

theorem stripTrailingSlashes_ne_nil : ∀ l : List Char, l ≠ [] → stripTrailingSlashes l ≠ []
  | [], h => absurd rfl h
  | [c], _ => by simp [stripTrailingSlashes]
  | c :: c1 :: r, _ => by
    rw [stripTrailingSlashes]
    split
    · exact stripTrailingSlashes_ne_nil (c1 :: r) (by simp)
    · simp

theorem basename_ne_empty (name : String) (h : name ≠ "") : basename name ≠ "" := by
  have hd : name.data.reverse ≠ [] := by
    intro h0
    apply h
    cases name
    simp only [List.reverse_eq_nil_iff] at h0
    subst h0
    rfl
  have hs := stripTrailingSlashes_ne_nil _ hd
  intro h0
  have h1 := congrArg String.data h0
  simp only [basename, String.data_append] at h1
  cases hstrip : stripTrailingSlashes name.data.reverse with
  | nil => exact hs hstrip
  | cons a as =>
    rw [hstrip] at h1
    simp at h1

theorem Rel_self (src : String) : Rel src src = .ok "." := by
  simp [Rel]

/-! ## `ListFiles` on a directory -/

/-- C2: for a directory `src` whose walk returns no error, `ListFiles` returns a map whose
keys, each present once, are exactly the paths of the subtree at `src` (`src` itself and
every entry beneath it), every key `p` being mapped to
`Join(dest, basename(src), Rel(src, p))`; `src` itself is mapped to
`Join(dest, basename(src))`. -/
theorem ListFiles_dir (fs : Tree) (src dest : String) (fi : FileInfo)
    (hfi : Lstat fs.lstat src = .ok fi) (hdir : IsDir fi.mode = true) (hsrc : src ≠ "")
    (hwalk : (Walk (listFilesFn src dest fi) src fs []).2 = none) :
    ∃ files, ListFiles fs src dest = (some files, none) ∧ (mapKeys files).Nodup ∧
      (∀ p, p ∈ mapKeys files ↔ p ∈ subtreePaths src fs) ∧
      (∀ p v, (p, v) ∈ files →
        ∃ rel, Rel src p = .ok rel ∧ v = Join [dest, basename src, rel]) ∧
      (src, Join [dest, basename src]) ∈ files := by
  have hname : fi.name = basename src := by
    unfold Lstat at hfi
    split at hfi
    · cases hfi
    · cases hfi; rfl
  have hw2 : (walk (listFilesFn src dest fi) src fi fs []).2 = none := by
    have hns := walk_not_skip src dest fi fs src fi []
    simp only [Walk, hfi] at hwalk
    split at hwalk
    · rename_i heq
      simp [hns.1, hns.2] at heq
    · exact hwalk
  refine ⟨(walk (listFilesFn src dest fi) src fi fs []).1, ?_, ?_, ?_, ?_, ?_⟩
  · simp only [ListFiles, hfi, hdir, Bool.not_true, Bool.false_eq_true, if_false,
      bne_self_eq_false]
    rw [← Walk_fst _ _ _ _ fi hfi]
  · exact walk_state_inv src dest fi (fun s => (mapKeys s).Nodup)
      (fun s path rel _ h => nodup_mapSet s path _ h) fs src fi [] (by simp [mapKeys])
  · intro p
    rw [walk_keys src dest fi fs src fi [] hfi hw2 p]
    simp [mapKeys]
  · intro p v hmem
    have := walk_inv src dest fi
      (fun kv => ∃ rel, Rel src kv.1 = .ok rel ∧ kv.2 = Join [dest, basename src, rel])
      (fun path rel hr => ⟨rel, hr, by rw [hname]⟩) fs src fi [] (by simp) (p, v) hmem
    exact this
  · have hkey : src ∈ mapKeys (walk (listFilesFn src dest fi) src fi fs []).1 := by
      rw [walk_keys src dest fi fs src fi [] hfi hw2 src]
      right
      cases fs with
      | node st re es => simp [subtreePaths]
    simp only [mapKeys, List.mem_map] at hkey
    obtain ⟨⟨k, v⟩, hmem, hk⟩ := hkey
    have hk1 : k = src := hk
    rw [hk1] at hmem
    obtain ⟨rel, hr, hv⟩ := walk_inv src dest fi
      (fun kv => ∃ rel, Rel src kv.1 = .ok rel ∧ kv.2 = Join [dest, basename src, rel])
      (fun path rel hr => ⟨rel, hr, by rw [hname]⟩) fs src fi [] (by simp) (src, v) hmem
    simp only at hr hv
    rw [Rel_self] at hr
    cases hr
    rw [Join_dot dest (basename src) (basename_ne_empty src hsrc)] at hv
    rw [← hv]
    exact hmem

theorem ListFiles_dir_witness :
    ∃ files, ListFiles tmpA "/tmp/a" "/opt" = (some files, none) ∧ (mapKeys files).Nodup ∧
      (∀ p, p ∈ mapKeys files ↔ p ∈ subtreePaths "/tmp/a" tmpA) ∧
      (∀ p v, (p, v) ∈ files →
        ∃ rel, Rel "/tmp/a" p = .ok rel ∧ v = Join ["/opt", basename "/tmp/a", rel]) ∧
      ("/tmp/a", Join ["/opt", basename "/tmp/a"]) ∈ files :=
  ListFiles_dir tmpA "/tmp/a" "/opt"
    { name := "a", size := 4096, mode := ModeDir + 493, modTime := 0 } (by decide) (by decide)
    (by decide) (by decide)

end Kp
